import Mathlib

/-!
# File management client (`frontend/src/App.jsx`)

A shallow embedding of the `App` component: its React state, the parameter
list built by `fetchFiles`, the row actions of the file list, and the
asynchronous handlers (`fetchFiles`, `handleUpload`, `handleDelete`, the
`onAuthStateChanged` listener) split at each `await` into the part that runs
up to the request and the continuation that runs when the request settles.
-/

namespace FileManager

/-! ## Data model -/

/-- The Firebase user object, as far as `App` reads it (`uid`, `displayName`). -/
structure User where
  uid : String
  displayName : String
deriving DecidableEq, Repr

/-- One element of the JSON array answered by `GET /files`. -/
structure FileRecord where
  id : String
  filename : String
  contentType : String
  size : Nat
  uploadDate : String
  userId : String
deriving DecidableEq, Repr

/-- A browser `File` picked in the upload input, identified by its name. -/
abbrev LocalFile := String

/-- The `useState` cells of `App` (lines 50-58). -/
structure AppState where
  user : Option User
  token : String
  files : List FileRecord
  loading : Bool
  sortBy : String
  filterType : String
  searchQuery : String
  isDarkMode : Bool
deriving DecidableEq, Repr

/-- The initial values passed to `useState` (lines 50-58). -/
def initialState : AppState :=
  { user := none, token := "", files := [], loading := false,
    sortBy := "date", filterType := "", searchQuery := "", isDarkMode := false }

/-! ## The parameter list of `fetchFiles` -/

/-- JavaScript truthiness of a string: every string but the empty one. -/
def truthy (s : String) : Bool := s != ""

/-- A `URLSearchParams` object: the ordered list of (name, value) pairs;
`append` adds a pair at the end. -/
abbrev URLSearchParams := List (String × String)

/-- The three conditional `params.append` calls of `fetchFiles` (lines 112-115). -/
def buildParams (sort filter search : String) : URLSearchParams :=
  let params : URLSearchParams := []
  let params := if truthy sort then params ++ [("sort_by", sort)] else params
  let params := if truthy filter then params ++ [("file_type", filter)] else params
  let params := if truthy search then params ++ [("search", search)] else params
  params

/-- The criteria cells of the state: `sortBy`, `filterType`, `searchQuery`. -/
structure Criteria where
  sortBy : String
  fileType : String
  searchQuery : String
deriving DecidableEq, Repr

/-- The criteria held in an application state. -/
def AppState.criteria (s : AppState) : Criteria :=
  { sortBy := s.sortBy, fileType := s.filterType, searchQuery := s.searchQuery }

/-- The criteria `useState` starts from (lines 55-57). -/
def defaultCriteria : Criteria := { sortBy := "date", fileType := "", searchQuery := "" }

/-- The parameter list `fetchFiles` builds for a criteria value. -/
def deriveQuery (c : Criteria) : URLSearchParams :=
  buildParams c.sortBy c.fileType c.searchQuery

/-- The value of the first parameter called `name`, as `URLSearchParams.get`
returns it, with an absent parameter read as the empty string. -/
def getParam (params : URLSearchParams) (name : String) : String :=
  match params.find? (fun p => p.1 == name) with
  | some p => p.2
  | none => ""

/-- Modelled from the spec: the reading back of a parameter list into a criteria
value, which the client has no code for; an absent parameter gives an absent
(empty) field. -/
def parseQuery (params : URLSearchParams) : Criteria :=
  { sortBy := getParam params "sort_by",
    fileType := getParam params "file_type",
    searchQuery := getParam params "search" }

/-! ## The actions of a file row -/

/-- The buttons of one file row (lines 341-351). -/
inductive Action where
  | download (fileId filename : String)
  | delete (fileId : String)
deriving DecidableEq, Repr

/-- The buttons rendered for `file` when `user` is signed in: Download always,
Delete under the guard `file.userId === user.uid`. -/
def rowActions (user : User) (file : FileRecord) : List Action :=
  [Action.download file.id file.filename] ++
    (if file.userId = user.uid then [Action.delete file.id] else [])

/-- Whether a Download button is among the actions. -/
def offersDownload (acts : List Action) : Bool :=
  acts.any fun a => match a with
    | Action.download _ _ => true
    | Action.delete _ => false

/-- Whether a Delete button is among the actions. -/
def offersDelete (acts : List Action) : Bool :=
  acts.any fun a => match a with
    | Action.download _ _ => false
    | Action.delete _ => true

/-- What `App` returns: the login screen when `user` is null (line 204), the
dashboard with one row per held file otherwise. -/
inductive View where
  | loginScreen
  | dashboard (displayName : String) (rows : List (FileRecord × List Action))
deriving DecidableEq, Repr

/-- The body of `App` after its hooks (lines 204-358), without styling. -/
def render (s : AppState) : View :=
  match s.user with
  | none => View.loginScreen
  | some u => View.dashboard u.displayName (s.files.map fun f => (f, rowActions u f))

/-! ## Requests, continuations and the event loop -/

/-- The backend address (line 21). -/
def API_URL : String := "https://file-backend-313855747442.us-central1.run.app"

/-- The value of the `Authorization` header. -/
def bearer (token : String) : String := "Bearer " ++ token

/-- The promises `App` awaits: the three axios calls of the claims' handlers and
`currentUser.getIdToken()`. The query of the GET is kept as the parameter list. -/
inductive Request where
  | get (url : String) (params : URLSearchParams) (authorization : String)
  | post (url : String) (formData : List (String × LocalFile)) (authorization : String)
  | delete (url : String) (authorization : String)
  | getIdToken (uid : String)
deriving DecidableEq, Repr

/-- How an awaited promise settles: an axios response with a 2xx status and its
`data`, the string `getIdToken` resolves to, or a rejection (axios rejects on
every status outside 2xx; status 0 stands for a transport failure). -/
inductive Response where
  | ok (data : List FileRecord)
  | idToken (accessToken : String)
  | error (status : Nat)
deriving DecidableEq, Repr

/-- Whether the promise was fulfilled. -/
def Response.fulfilled : Response → Bool
  | Response.ok _ => true
  | Response.idToken _ => true
  | Response.error _ => false

/-- What the outside world can observe, in the order it happens. The tag of a
request is bookkeeping of the model (it names the promise); no handler reads it. -/
inductive Effect where
  | request (tag : Nat) (req : Request)
  | settled (tag : Nat) (fulfilled : Bool)
  | alert (msg : String)
  | consoleError (msg : String)
deriving DecidableEq, Repr

/-- A handler suspended at an `await`, with the variables its closure holds:
`handleUpload` holds the file list, the loop index, `token` and the criteria
that the default arguments of its `fetchFiles` refer to; `handleDelete` holds the
`files` of the render it was created in and the `fileId`. -/
inductive Cont where
  | getIdToken (currentUser : User)
  | fetchFiles
  | handleUpload (selectedFiles : List LocalFile) (i : Nat)
      (token sortBy filterType searchQuery : String)
  | handleDelete (files : List FileRecord) (fileId : String)
deriving DecidableEq, Repr

/-- The component together with its environment: the React state, the browser
`localStorage`, the promises not yet settled with the handler each one resumes,
and the effects so far. -/
structure Sys where
  app : AppState
  localStorage : List (String × String)
  pending : List (Nat × Cont)
  nextTag : Nat
  log : List Effect
deriving DecidableEq, Repr

/-- The freshly mounted component. -/
def Sys.init (localStorage : List (String × String)) : Sys :=
  { app := initialState, localStorage := localStorage, pending := [], nextTag := 0, log := [] }

/-- Start a request and suspend the calling handler on it. -/
def issue (σ : Sys) (req : Request) (k : Cont) : Sys :=
  { σ with
    pending := σ.pending ++ [(σ.nextTag, k)],
    nextTag := σ.nextTag + 1,
    log := σ.log ++ [Effect.request σ.nextTag req] }

/-- The handler waiting on the promise `tag`, if any. -/
def lookupCont (tag : Nat) (pending : List (Nat × Cont)) : Option Cont :=
  (pending.find? fun p => p.1 == tag).map fun p => p.2

/-- The pending promises without `tag`. -/
def dropTag (tag : Nat) (pending : List (Nat × Cont)) : List (Nat × Cont) :=
  pending.filter fun p => p.1 != tag

/-- The function `fetchFiles` up to its `await` (lines 109-119): `setLoading(true)`,
the parameter list, the GET. The default arguments `sort = sortBy` etc. are
supplied by the caller from the closure the call is made in. -/
def fetchFiles (σ : Sys) (authToken sort filter search : String) : Sys :=
  let σ := { σ with app := { σ.app with loading := true } }
  let params := buildParams sort filter search
  issue σ (Request.get (API_URL ++ "/files") params (bearer authToken)) Cont.fetchFiles

/-- The function `fetchFiles` after its `await` (lines 120-125): `setFiles(response.data)`
on success, `console.error` on rejection, `setLoading(false)` in both cases. -/
def fetchFiles_resume (σ : Sys) (resp : Response) : Sys :=
  match resp with
  | Response.ok data => { σ with app := { σ.app with files := data, loading := false } }
  | _ =>
    { σ with
      app := { σ.app with loading := false },
      log := σ.log ++ [Effect.consoleError "Error fetching files:"] }

/-- The button handler `applyFilters` (line 189). -/
def applyFilters (σ : Sys) : Sys :=
  if truthy σ.app.token then
    fetchFiles σ σ.app.token σ.app.sortBy σ.app.filterType σ.app.searchQuery
  else σ

/-- The listener passed to `onAuthStateChanged` (lines 83-99) up to its `await`:
with a user it awaits `getIdToken`; without one it runs the four setters of the
signed-out branch. -/
def onAuthStateChanged (σ : Sys) (currentUser : Option User) : Sys :=
  match currentUser with
  | some u => issue σ (Request.getIdToken u.uid) (Cont.getIdToken u)
  | none =>
    { σ with app := { σ.app with user := none, token := "", files := [], isDarkMode := false } }

/-- The value `localStorage.getItem(key)` returns, `none` for `null`. -/
def getItem (localStorage : List (String × String)) (key : String) : Option String :=
  (localStorage.find? fun p => p.1 == key).map fun p => p.2

/-- The signed-in branch of the listener after `getIdToken` resolved (lines 86-92).
The listener is created by an effect with an empty dependency list, so the
`fetchFiles` it calls is the one of the first render, whose default arguments
are the initial criteria `"date"`, `""`, `""`. -/
def onAuthStateChanged_resume (σ : Sys) (currentUser : User) (accessToken : String) : Sys :=
  let savedTheme := getItem σ.localStorage ("darkMode_" ++ currentUser.uid)
  let σ := { σ with app := { σ.app with
      user := some currentUser, token := accessToken,
      isDarkMode := decide (savedTheme = some "true") } }
  fetchFiles σ accessToken initialState.sortBy initialState.filterType initialState.searchQuery

/-- The loop of `handleUpload` from index `i` on (lines 144-151 and 154-156): while
`i < selectedFiles.length` it posts a form holding `selectedFiles[i]` under the
name `file` and awaits it; after the loop it calls `fetchFiles(token)`, which
runs up to its own `await`, and the `finally` block sets `loading` to false. -/
def uploadLoop (σ : Sys) (selectedFiles : List LocalFile) (i : Nat)
    (token sortBy filterType searchQuery : String) : Sys :=
  if h : i < selectedFiles.length then
    let data : List (String × LocalFile) := [] ++ [("file", selectedFiles[i])]
    issue σ (Request.post (API_URL ++ "/upload") data (bearer token))
      (Cont.handleUpload selectedFiles i token sortBy filterType searchQuery)
  else
    let σ := fetchFiles σ token sortBy filterType searchQuery
    { σ with app := { σ.app with loading := false } }

/-- The handler `handleUpload` up to its first `await` (lines 138-147); `none` is a
null `event.target.files`. -/
def handleUpload (σ : Sys) (selectedFiles : Option (List LocalFile)) : Sys :=
  match selectedFiles with
  | none => σ
  | some selectedFiles =>
    if selectedFiles.length = 0 then σ
    else
      let σ1 := { σ with app := { σ.app with loading := true } }
      uploadLoop σ1 selectedFiles 0 σ.app.token σ.app.sortBy σ.app.filterType σ.app.searchQuery

/-- The handler `handleUpload` after the `await` of the post for index `i`: on
success the loop goes on with `i + 1`; a rejection leaves the loop for the
`catch` block (`alert`) and the `finally` block. -/
def handleUpload_resume (σ : Sys) (selectedFiles : List LocalFile) (i : Nat)
    (token sortBy filterType searchQuery : String) (resp : Response) : Sys :=
  match resp with
  | Response.ok _ => uploadLoop σ selectedFiles (i + 1) token sortBy filterType searchQuery
  | _ =>
    { σ with
      app := { σ.app with loading := false },
      log := σ.log ++ [Effect.alert "Upload failed."] }

/-- The handler `handleDelete` up to its `await` (lines 159-164); `confirmed` is the
answer of `window.confirm`. -/
def handleDelete (σ : Sys) (fileId : String) (confirmed : Bool) : Sys :=
  if !confirmed then σ
  else
    issue σ (Request.delete (API_URL ++ "/files/" ++ fileId) (bearer σ.app.token))
      (Cont.handleDelete σ.app.files fileId)

/-- The handler `handleDelete` after its `await` (lines 165-168): on success
`setFiles(files.filter(f => f.id !== fileId))` with the `files` of its closure,
on rejection an `alert`. -/
def handleDelete_resume (σ : Sys) (files : List FileRecord) (fileId : String)
    (resp : Response) : Sys :=
  match resp with
  | Response.ok _ => { σ with app := { σ.app with files := files.filter fun f => f.id != fileId } }
  | _ => { σ with log := σ.log ++ [Effect.alert "Error deleting file."] }

/-- What can happen on the event loop: the identity provider reports a user or
none, a pending promise settles, or the user acts on a control. -/
inductive Event where
  | authStateChanged (currentUser : Option User)
  | respond (tag : Nat) (resp : Response)
  | setSortBy (value : String)
  | setFilterType (value : String)
  | setSearchQuery (value : String)
  | applyFilters
  | handleUpload (selectedFiles : Option (List LocalFile))
  | handleDelete (fileId : String) (confirmed : Bool)
deriving DecidableEq, Repr

/-- Run the handler suspended on a promise that settles with `resp`. The promise
is taken off the pending list first. A token delivered to an axios call, or
axios data delivered to `getIdToken`, is no settlement of that promise and
leaves everything as it is; a rejected `getIdToken` ends the listener. -/
def settle (σ : Sys) (tag : Nat) (k : Cont) (resp : Response) : Sys :=
  let σ1 := { σ with
    pending := dropTag tag σ.pending,
    log := σ.log ++ [Effect.settled tag resp.fulfilled] }
  match k, resp with
  | Cont.getIdToken u, Response.idToken accessToken => onAuthStateChanged_resume σ1 u accessToken
  | Cont.getIdToken _, Response.error _ => σ1
  | Cont.getIdToken _, Response.ok _ => σ
  | _, Response.idToken _ => σ
  | Cont.fetchFiles, resp => fetchFiles_resume σ1 resp
  | Cont.handleUpload selectedFiles i token sortBy filterType searchQuery, resp =>
    handleUpload_resume σ1 selectedFiles i token sortBy filterType searchQuery resp
  | Cont.handleDelete files fileId, resp => handleDelete_resume σ1 files fileId resp

/-- One turn of the event loop. -/
def step (σ : Sys) : Event → Sys
  | Event.authStateChanged currentUser => onAuthStateChanged σ currentUser
  | Event.respond tag resp =>
    match lookupCont tag σ.pending with
    | none => σ
    | some k => settle σ tag k resp
  | Event.setSortBy value => { σ with app := { σ.app with sortBy := value } }
  | Event.setFilterType value => { σ with app := { σ.app with filterType := value } }
  | Event.setSearchQuery value => { σ with app := { σ.app with searchQuery := value } }
  | Event.applyFilters => applyFilters σ
  | Event.handleUpload selectedFiles => handleUpload σ selectedFiles
  | Event.handleDelete fileId confirmed => handleDelete σ fileId confirmed

/-- The turns of the event loop for a sequence of events. -/
def run (σ : Sys) (events : List Event) : Sys :=
  events.foldl step σ

/-- Whether a suspended handler is a `handleUpload`. -/
def Cont.isUpload : Cont → Bool
  | Cont.handleUpload _ _ _ _ _ _ => true
  | _ => false

/-- Every pending promise carries a tag handed out earlier. -/
def Sys.WF (σ : Sys) : Prop := ∀ p ∈ σ.pending, p.1 < σ.nextTag

instance (σ : Sys) : Decidable σ.WF := by
  unfold Sys.WF; infer_instance

/-- No `handleUpload` is suspended: no batch is under way. -/
def Sys.noUpload (σ : Sys) : Prop := ∀ p ∈ σ.pending, p.2.isUpload = false

instance (σ : Sys) : Decidable σ.noUpload := by
  unfold Sys.noUpload; infer_instance

/-- The form `handleUpload` posts for one file: the file under the name `file`. -/
def formOf (file : LocalFile) : List (String × LocalFile) := [("file", file)]

/-! ## Sample data -/

/-- A signed-in user. -/
def alice : User := { uid := "u1", displayName := "Alice" }

/-- A record owned by `alice`. -/
def recA : FileRecord :=
  { id := "a", filename := "a.txt", contentType := "text/plain", size := 10,
    uploadDate := "2024-01-01", userId := "u1" }

/-- A record owned by somebody else. -/
def recB : FileRecord :=
  { id := "b", filename := "b.pdf", contentType := "application/pdf", size := 2048,
    uploadDate := "2024-01-02", userId := "u2" }

/-- Another record owned by `alice`. -/
def recC : FileRecord :=
  { id := "c", filename := "c.json", contentType := "application/json", size := 4096,
    uploadDate := "2024-01-03", userId := "u1" }

/-- The state after `alice` signed in, her token arrived and the first list
answered `[recA, recB]`. -/
def signedIn : Sys :=
  run (Sys.init []) [Event.authStateChanged (some alice), Event.respond 0 (Response.idToken "tok"),
    Event.respond 1 (Response.ok [recA, recB])]

/-! ## The backend answering a batch, and what a log shows -/

/-- The upload request in flight, if any: its tag and the index of its file. -/
def pendingUpload (pending : List (Nat × Cont)) : Option (Nat × Nat) :=
  pending.findSome? fun p =>
    match p.2 with
    | Cont.handleUpload _ i _ _ _ _ => some (p.1, i)
    | _ => none

/-- The backend answering the upload requests of a batch one after the other,
rejecting (status 400) the files whose index is in `rejected` and accepting the
others, until no upload request is in flight; `fuel` bounds the number of
answers. -/
def serveUploads (rejected : Nat → Bool) : Nat → Sys → Sys
  | 0, σ => σ
  | fuel + 1, σ =>
    match pendingUpload σ.pending with
    | none => σ
    | some (tag, i) =>
      serveUploads rejected fuel
        (step σ (Event.respond tag (if rejected i then Response.error 400 else Response.ok [])))

/-- The form data of the upload requests in a log, in the order of issue. -/
def uploadRequests (log : List Effect) : List (List (String × LocalFile)) :=
  log.filterMap fun e =>
    match e with
    | Effect.request _ (Request.post _ formData _) => some formData
    | _ => none

/-- The list requests (calls of `fetchFiles`) in a log: parameter list and
authorization header of each. -/
def listRequests (log : List Effect) : List (URLSearchParams × String) :=
  log.filterMap fun e =>
    match e with
    | Effect.request _ (Request.get _ params authorization) => some (params, authorization)
    | _ => none

/-- The alerts shown in a log. -/
def alerts (log : List Effect) : List String :=
  log.filterMap fun e =>
    match e with
    | Effect.alert msg => some msg
    | _ => none

/-- One entry of a log read for the uploads: an upload request joins the
requests in flight, and it is in order only when none was in flight before it;
a settlement takes its request out of those in flight. -/
def trackUploads (st : Bool × List Nat) (e : Effect) : Bool × List Nat :=
  match e with
  | Effect.request tag (Request.post _ _ _) => (st.1 && st.2.isEmpty, st.2 ++ [tag])
  | Effect.settled tag _ => (st.1, st.2.filter fun t => t != tag)
  | _ => st

/-- The tags of the upload requests issued in a log and not settled in it. -/
def inFlightUploads (log : List Effect) : List Nat :=
  (log.foldl trackUploads (true, [])).2

/-- Whether every upload request of a log was issued while no other was in flight. -/
def uploadsSequential (log : List Effect) : Bool :=
  (log.foldl trackUploads (true, [])).1

/-- The tags of the suspended `handleUpload` handlers. -/
def uploadTags (pending : List (Nat × Cont)) : List Nat :=
  (pending.filter fun p => p.2.isUpload).map Prod.fst

/-- Whether an effect is neither an upload request nor a settlement: it leaves the
uploads in flight as they are. -/
def Effect.quiet : Effect → Bool
  | Effect.request _ (Request.post _ _ _) => false
  | Effect.settled _ _ => false
  | _ => true

/-- Whether an event is a settlement of the promise `tag`. -/
def Event.settles (tag : Nat) : Event → Bool
  | Event.respond t _ => t == tag
  | _ => false

/-- Whether an event is the start of a batch. -/
def Event.isHandleUpload : Event → Bool
  | Event.handleUpload _ => true
  | _ => false

/-- The effects of a batch from the post of `files.head` (index `i`, tag `tag`) on,
when each request is answered before anything else happens: the run of
`handleUpload` written as one recursion over the files still to send. -/
def uploadTraceFrom (rejected : Nat → Bool) (token sortBy filterType searchQuery : String) :
    List LocalFile → Nat → Nat → List Effect
  | [], _, tag =>
    [Effect.request tag (Request.get (API_URL ++ "/files")
      (buildParams sortBy filterType searchQuery) (bearer token))]
  | file :: rest, i, tag =>
    Effect.request tag (Request.post (API_URL ++ "/upload") [("file", file)] (bearer token)) ::
    Effect.settled tag (!rejected i) ::
    (if rejected i then [Effect.alert "Upload failed."]
     else uploadTraceFrom rejected token sortBy filterType searchQuery rest (i + 1) (tag + 1))

/-! ## Invariants of a batch -/

/-- The state of a batch whose post for index `i` is in flight under tag `t`, next to
the pending promises `old` of other handlers. -/
structure UploadAt (σ : Sys) (old : List (Nat × Cont)) (t : Nat) (sel : List LocalFile)
    (i : Nat) (token sortBy filterType searchQuery : String) : Prop where
  pending : σ.pending = old ++ [(t, Cont.handleUpload sel i token sortBy filterType searchQuery)]
  nextTag : σ.nextTag = t + 1
  fresh : ∀ p ∈ old, p.1 < t
  others : ∀ p ∈ old, p.2.isUpload = false
  inRange : i < sel.length

/-- What holds of a batch over `sel` at every moment: `log` is the log since the
batch started, `m` the number of upload requests issued so far. -/
structure BatchInv (sel : List LocalFile) (pending : List (Nat × Cont)) (log : List Effect)
    (m : Nat) : Prop where
  sequential : uploadsSequential log = true
  inFlight : inFlightUploads log = uploadTags pending
  bound : m ≤ sel.length
  requests : uploadRequests log = (sel.take m).map formOf
  conts : ∀ p ∈ pending, p.2.isUpload = true →
    0 < m ∧ ∃ token sortBy filterType searchQuery,
      p.2 = Cont.handleUpload sel (m - 1) token sortBy filterType searchQuery

/-- The invariant of a batch over `sel` read on a state: the log is `base` followed
by a log that satisfies `BatchInv` with the pending promises of the state. -/
def BatchState (sel : List LocalFile) (base : List Effect) (σ : Sys) : Prop :=
  ∃ log m, σ.log = base ++ log ∧ BatchInv sel σ.pending log m

/-! ## Lemmas on the pending list -/

theorem lookupCont_append_fresh (pending : List (Nat × Cont)) (t : Nat) (k : Cont)
    (h : ∀ p ∈ pending, p.1 < t) : lookupCont t (pending ++ [(t, k)]) = some k := by
  induction pending with
  | nil => simp [lookupCont]
  | cons p ps ih =>
    have hp : p.1 < t := h p (List.mem_cons_self _ _)
    have hne : (p.1 == t) = false := by simpa using Nat.ne_of_lt hp
    have ih' := ih (fun q hq => h q (List.mem_cons_of_mem _ hq))
    simp only [lookupCont, List.cons_append, List.find?_cons, hne] at ih' ⊢
    exact ih'

theorem lookupCont_append_old (pending : List (Nat × Cont)) (t u : Nat) (k : Cont)
    (h : t ≠ u) : lookupCont t (pending ++ [(u, k)]) = lookupCont t pending := by
  induction pending with
  | nil =>
    have : (u == t) = false := by simpa using fun e => h e.symm
    simp [lookupCont, List.find?_cons, this]
  | cons p ps ih =>
    simp only [lookupCont, List.cons_append, List.find?_cons] at ih ⊢
    cases hp : (p.1 == t)
    · exact ih
    · rfl

theorem lookupCont_dropTag (pending : List (Nat × Cont)) (t u : Nat) (h : t ≠ u) :
    lookupCont t (dropTag u pending) = lookupCont t pending := by
  induction pending with
  | nil => rfl
  | cons p ps ih =>
    simp only [lookupCont, dropTag, List.filter_cons, List.find?_cons] at ih ⊢
    by_cases hpu : p.1 = u
    · have h1 : (p.1 != u) = false := by simp [hpu]
      have h2 : (p.1 == t) = false := by simpa [hpu] using fun e => h e.symm
      simp only [h1, h2]
      simpa using ih
    · have h1 : (p.1 != u) = true := by simp [hpu]
      simp only [h1, if_true, List.find?_cons]
      cases hp : (p.1 == t)
      · exact ih
      · rfl

/-! ## Sign-out (C3) -/

/-- C3, refuted as stated: after `alice` chose "Sort by Size" and then signed out,
the file collection, user and token are cleared but the criteria are not the
defaults. -/
theorem signOut_criteria_counterexample :
    ¬ ((run signedIn [Event.setSortBy "size", Event.authStateChanged none]).app.files = [] ∧
       (run signedIn [Event.setSortBy "size", Event.authStateChanged none]).app.user = none ∧
       (run signedIn [Event.setSortBy "size", Event.authStateChanged none]).app.token = "" ∧
       (run signedIn [Event.setSortBy "size", Event.authStateChanged none]).app.criteria
         = defaultCriteria) := by
  decide

/-- C3, amended: after the sign-out transition the file collection is empty and the
user and token are absent, while the criteria (and so the query derived from
them) are the ones held before the transition. -/
theorem signOut_clears_files_keeps_criteria (σ : Sys) :
    (step σ (Event.authStateChanged none)).app.files = [] ∧
    (step σ (Event.authStateChanged none)).app.user = none ∧
    (step σ (Event.authStateChanged none)).app.token = "" ∧
    (step σ (Event.authStateChanged none)).app.criteria = σ.app.criteria ∧
    deriveQuery (step σ (Event.authStateChanged none)).app.criteria = deriveQuery σ.app.criteria := by
  simp [step, onAuthStateChanged, AppState.criteria]

/-! ## Row actions (C6) -/

/-- C6, refuted as stated: `recB` belongs to another user, yet its row offers
Download to `alice`. -/
theorem download_gating_counterexample :
    signedIn.app.user = some alice ∧ recB ∈ signedIn.app.files ∧
    ¬ ((offersDelete (rowActions alice recB) = true ↔ recB.userId = alice.uid) ∧
       (offersDownload (rowActions alice recB) = true ↔ recB.userId = alice.uid)) := by
  decide

/-- C6, amended: in the dashboard of a signed-in user `s` the rows are the held
records in order; a row offers Delete iff the record's `userId` equals `s.uid`,
and every row offers Download. -/
theorem delete_gated_download_always (st : AppState) (s : User) (h : st.user = some s) :
    ∃ rows, render st = View.dashboard s.displayName rows ∧
      rows.map Prod.fst = st.files ∧
      ∀ row ∈ rows, row.2 = rowActions s row.1 ∧
        (offersDelete row.2 = true ↔ row.1.userId = s.uid) ∧
        offersDownload row.2 = true := by
  refine ⟨st.files.map fun f => (f, rowActions s f), ?_, ?_, ?_⟩
  · simp [render, h]
  · simp [List.map_map, Function.comp_def]
  · intro row hrow
    obtain ⟨f, -, rfl⟩ := List.mem_map.mp hrow
    refine ⟨rfl, ?_, ?_⟩
    · by_cases hf : f.userId = s.uid <;> simp [rowActions, offersDelete, hf]
    · simp [rowActions, offersDownload]

theorem delete_gated_download_always_witness :
    ∃ rows, render signedIn.app = View.dashboard alice.displayName rows ∧
      rows.map Prod.fst = signedIn.app.files ∧
      ∀ row ∈ rows, row.2 = rowActions alice row.1 ∧
        (offersDelete row.2 = true ↔ row.1.userId = alice.uid) ∧
        offersDownload row.2 = true :=
  delete_gated_download_always signedIn.app alice (by decide)

/-! ## Criteria and the parameter list (C7) -/

theorem getParam_sort_by (sort filter search : String) :
    getParam (buildParams sort filter search) "sort_by" = sort := by
  by_cases h1 : sort = "" <;> by_cases h2 : filter = "" <;> by_cases h3 : search = "" <;>
    simp [buildParams, truthy, getParam, List.find?_cons, h1, h2, h3]

theorem getParam_file_type (sort filter search : String) :
    getParam (buildParams sort filter search) "file_type" = filter := by
  by_cases h1 : sort = "" <;> by_cases h2 : filter = "" <;> by_cases h3 : search = "" <;>
    simp [buildParams, truthy, getParam, List.find?_cons, h1, h2, h3]

theorem getParam_search (sort filter search : String) :
    getParam (buildParams sort filter search) "search" = search := by
  by_cases h1 : sort = "" <;> by_cases h2 : filter = "" <;> by_cases h3 : search = "" <;>
    simp [buildParams, truthy, getParam, List.find?_cons, h1, h2, h3]

theorem parseQuery_deriveQuery (c : Criteria) : parseQuery (deriveQuery c) = c := by
  cases c
  simp [parseQuery, deriveQuery, getParam_sort_by, getParam_file_type, getParam_search]

/-- C7: for every criteria value, in particular one with `sortBy` among `date` and
`size`, a MIME string or the empty string as type filter and any search text or
the empty string, the GET that `fetchFiles` issues carries the derived
parameter list, reading that list back (an absent parameter read as an absent
field) gives the criteria again, and two criteria have the same parameter list
exactly when they are equal. -/
theorem criteria_roundtrip (c : Criteria) :
    (∀ (σ : Sys) (authToken : String),
      (fetchFiles σ authToken c.sortBy c.fileType c.searchQuery).log =
        σ.log ++ [Effect.request σ.nextTag
          (Request.get (API_URL ++ "/files") (deriveQuery c) (bearer authToken))]) ∧
    parseQuery (deriveQuery c) = c ∧
    ∀ c' : Criteria, (deriveQuery c = deriveQuery c' ↔ c = c') := by
  refine ⟨fun σ authToken => rfl, parseQuery_deriveQuery c, fun c' => ⟨fun h => ?_, fun h => ?_⟩⟩
  · rw [← parseQuery_deriveQuery c, ← parseQuery_deriveQuery c', h]
  · rw [h]

/-! ## Delete (C9, C10) -/

theorem run_handleDelete_respond (σ : Sys) (hσ : σ.WF) (fileId : String) (resp : Response) :
    run σ [Event.handleDelete fileId true, Event.respond σ.nextTag resp] =
      settle (handleDelete σ fileId true) σ.nextTag (Cont.handleDelete σ.app.files fileId) resp := by
  have hl := lookupCont_append_fresh σ.pending σ.nextTag (Cont.handleDelete σ.app.files fileId) hσ
  simp only [run, List.foldl, step, handleDelete, issue, Bool.not_true, Bool.false_eq_true,
    if_false, hl]

theorem lookupCont_append_some (t : Nat) (pending extra : List (Nat × Cont)) (k : Cont)
    (h : lookupCont t pending = some k) : lookupCont t (pending ++ extra) = some k := by
  simp only [lookupCont, Option.map_eq_some'] at h ⊢
  obtain ⟨p, hp, hk⟩ := h
  exact ⟨p, by rw [List.find?_append, hp]; rfl, hk⟩

theorem waiting_issue {σ : Sys} {t : Nat} {k : Cont} (h : lookupCont t σ.pending = some k)
    (req : Request) (k' : Cont) : lookupCont t (issue σ req k').pending = some k :=
  lookupCont_append_some t σ.pending _ k h

theorem waiting_fetchFiles {σ : Sys} {t : Nat} {k : Cont} (h : lookupCont t σ.pending = some k)
    (authToken sort filter search : String) :
    lookupCont t (fetchFiles σ authToken sort filter search).pending = some k :=
  lookupCont_append_some t σ.pending _ k h

theorem waiting_uploadLoop {σ : Sys} {t : Nat} {k : Cont} (h : lookupCont t σ.pending = some k)
    (sel : List LocalFile) (i : Nat) (token sortBy filterType searchQuery : String) :
    lookupCont t (uploadLoop σ sel i token sortBy filterType searchQuery).pending = some k := by
  unfold uploadLoop
  split
  · exact lookupCont_append_some t σ.pending _ k h
  · exact lookupCont_append_some t σ.pending _ k h

theorem waiting_settle {σ : Sys} {t : Nat} {k : Cont} (h : lookupCont t σ.pending = some k)
    (u : Nat) (hne : t ≠ u) (k' : Cont) (resp : Response) :
    lookupCont t (settle σ u k' resp).pending = some k := by
  have h1 : lookupCont t (dropTag u σ.pending) = some k := by
    rw [lookupCont_dropTag _ _ _ hne]; exact h
  cases k' with
  | getIdToken usr =>
    cases resp with
    | ok data => exact h
    | error status => exact h1
    | idToken accessToken => exact lookupCont_append_some t _ _ k h1
  | fetchFiles =>
    cases resp with
    | ok data => exact h1
    | error status => exact h1
    | idToken accessToken => exact h
  | handleDelete files fileId =>
    cases resp with
    | ok data => exact h1
    | error status => exact h1
    | idToken accessToken => exact h
  | handleUpload sel i token sortBy filterType searchQuery =>
    cases resp with
    | ok data =>
      exact waiting_uploadLoop (σ := { σ with
        pending := dropTag u σ.pending,
        log := σ.log ++ [Effect.settled u true] }) h1 sel (i + 1) token sortBy filterType searchQuery
    | error status => exact h1
    | idToken accessToken => exact h

/-- A handler suspended on the promise `t` stays suspended on it through every turn
of the event loop that does not settle `t`. -/
theorem waiting_step {σ : Sys} {t : Nat} {k : Cont} (h : lookupCont t σ.pending = some k)
    (e : Event) (he : e.settles t = false) : lookupCont t (step σ e).pending = some k := by
  cases e with
  | authStateChanged currentUser =>
    cases currentUser with
    | none => exact h
    | some u => exact waiting_issue h _ _
  | respond u resp =>
    have hne : t ≠ u := by
      intro e
      simp [Event.settles, e] at he
    simp only [step]
    cases lookupCont u σ.pending with
    | none => exact h
    | some k' => exact waiting_settle h u hne k' resp
  | setSortBy value => exact h
  | setFilterType value => exact h
  | setSearchQuery value => exact h
  | applyFilters =>
    simp only [step, applyFilters]
    split
    · exact waiting_fetchFiles h _ _ _ _
    · exact h
  | handleUpload selectedFiles =>
    cases selectedFiles with
    | none => exact h
    | some sel =>
      simp only [step, handleUpload]
      split
      · exact h
      · exact waiting_uploadLoop (σ := { σ with app := { σ.app with loading := true } }) h sel 0
          _ _ _ _
  | handleDelete fileId confirmed =>
    cases confirmed with
    | false => exact h
    | true => exact waiting_issue h _ _

theorem waiting_run {t : Nat} {k : Cont} (events : List Event) :
    ∀ {σ : Sys}, lookupCont t σ.pending = some k → (∀ e ∈ events, e.settles t = false) →
      lookupCont t (run σ events).pending = some k := by
  induction events with
  | nil => intro σ h _; exact h
  | cons e rest ih =>
    intro σ h he
    exact ih (waiting_step h e (he e (List.mem_cons_self _ _)))
      (fun e' he' => he e' (List.mem_cons_of_mem _ he'))

/-- C9, refuted as stated: `alice` confirms the deletion of `recA` while the
collection is `[recA, recB]`, filters by JSON, the list answers `[recC]`,
and then the DELETE succeeds. The collection held before the DELETE's answer
is `[recC]`; afterwards it is `[recB]`: `recC`, whose `id` is not the deleted
one, is not kept, and `recB`, which was not in the collection, is added. -/
theorem delete_stale_collection_counterexample :
    (run signedIn [Event.handleDelete "a" true,
      Event.setFilterType "application/json", Event.applyFilters,
      Event.respond 3 (Response.ok [recC])]).app.files = [recC] ∧
    (run signedIn [Event.handleDelete "a" true,
      Event.setFilterType "application/json", Event.applyFilters,
      Event.respond 3 (Response.ok [recC]), Event.respond 2 (Response.ok [])]).app.files
      = [recB] ∧
    (run signedIn [Event.handleDelete "a" true,
      Event.setFilterType "application/json", Event.applyFilters,
      Event.respond 3 (Response.ok [recC]), Event.respond 2 (Response.ok [])]).app.files
      ≠ (run signedIn [Event.handleDelete "a" true,
      Event.setFilterType "application/json", Event.applyFilters,
          Event.respond 3 (Response.ok [recC])]).app.files.filter (fun f => f.id != "a") ∧
    recC.id ≠ "a" ∧
    recC ∉ (run signedIn [Event.handleDelete "a" true,
      Event.setFilterType "application/json", Event.applyFilters,
      Event.respond 3 (Response.ok [recC]), Event.respond 2 (Response.ok [])]).app.files ∧
    recB ∈ (run signedIn [Event.handleDelete "a" true,
      Event.setFilterType "application/json", Event.applyFilters,
      Event.respond 3 (Response.ok [recC]), Event.respond 2 (Response.ok [])]).app.files ∧
    recB ∉ (run signedIn [Event.handleDelete "a" true,
      Event.setFilterType "application/json", Event.applyFilters,
      Event.respond 3 (Response.ok [recC])]).app.files := by
  decide

/-- C9, amended: when the user confirms and the DELETE request succeeds, whatever
happens between the confirmation and the DELETE's answer (list answers, other
deletes, uploads, sign-out), the collection held afterwards is the collection
held at the confirmation without the records whose `id` is `fileId`: the other
records of that collection are all kept, in the same order, and no record
appears that was not in it. With no event in between this is the collection
held right before the answer. -/
theorem delete_success_filters_confirmed_collection (σ : Sys) (hσ : σ.WF) (fileId : String)
    (events : List Event) (hev : ∀ e ∈ events, e.settles σ.nextTag = false)
    (data : List FileRecord) :
    (run σ (Event.handleDelete fileId true :: events ++
        [Event.respond σ.nextTag (Response.ok data)])).app.files
      = σ.app.files.filter (fun f => f.id != fileId) ∧
    (run σ (Event.handleDelete fileId true :: events ++
        [Event.respond σ.nextTag (Response.ok data)])).app.files.Sublist σ.app.files ∧
    (∀ r ∈ σ.app.files, r.id ≠ fileId →
      r ∈ (run σ (Event.handleDelete fileId true :: events ++
        [Event.respond σ.nextTag (Response.ok data)])).app.files) ∧
    (∀ r ∈ (run σ (Event.handleDelete fileId true :: events ++
        [Event.respond σ.nextTag (Response.ok data)])).app.files,
      r ∈ σ.app.files ∧ r.id ≠ fileId) := by
  have h0 : lookupCont σ.nextTag (handleDelete σ fileId true).pending
      = some (Cont.handleDelete σ.app.files fileId) :=
    lookupCont_append_fresh σ.pending σ.nextTag (Cont.handleDelete σ.app.files fileId) hσ
  have h1 := waiting_run events h0 hev
  have hrun : (run σ (Event.handleDelete fileId true :: events ++
      [Event.respond σ.nextTag (Response.ok data)])).app.files
        = σ.app.files.filter (fun f => f.id != fileId) := by
    have hsplit : run σ (Event.handleDelete fileId true :: events ++
        [Event.respond σ.nextTag (Response.ok data)]) =
        step (run (handleDelete σ fileId true) events)
          (Event.respond σ.nextTag (Response.ok data)) := by
      simp [run, List.foldl_append, step]
    rw [hsplit]
    simp only [step, h1]
    simp [settle, handleDelete_resume]
  rw [hrun]
  refine ⟨rfl, List.filter_sublist _, ?_, ?_⟩
  · intro r hr hne
    simp [List.mem_filter, hr, hne]
  · intro r hr
    simpa [List.mem_filter] using hr

theorem delete_success_filters_confirmed_collection_witness :
    signedIn.WF ∧
    (∀ e ∈ [Event.applyFilters, Event.respond 3 (Response.ok [recC])],
      e.settles signedIn.nextTag = false) ∧
    (run signedIn (Event.handleDelete "a" true ::
      [Event.applyFilters, Event.respond 3 (Response.ok [recC])] ++
        [Event.respond signedIn.nextTag (Response.ok [])])).app.files
      = signedIn.app.files.filter (fun f => f.id != "a") :=
  ⟨by decide, by decide,
    (delete_success_filters_confirmed_collection signedIn (by decide) "a"
      [Event.applyFilters, Event.respond 3 (Response.ok [recC])] (by decide) []).1⟩

/-- C10, refuted as stated: `alice` confirms the deletion of `recA` and the DELETE
is answered 404; the record is still in the collection. -/
theorem delete_not_found_counterexample :
    (run signedIn [Event.handleDelete "a" true, Event.respond 2 (Response.error 404)]).app.files
      ≠ signedIn.app.files.filter (fun f => f.id != "a") ∧
    recA ∈ (run signedIn [Event.handleDelete "a" true,
      Event.respond 2 (Response.error 404)]).app.files := by
  decide

/-- C10, amended: when the user confirms and the DELETE request is rejected, with
status 404 or any other, `handleDelete` leaves the collection as it was and
shows the alert "Error deleting file.". -/
theorem delete_rejected_keeps_collection (σ : Sys) (hσ : σ.WF) (fileId : String)
    (status : Nat) :
    (run σ [Event.handleDelete fileId true,
      Event.respond σ.nextTag (Response.error status)]).app.files = σ.app.files ∧
    (run σ [Event.handleDelete fileId true,
      Event.respond σ.nextTag (Response.error status)]).log =
      σ.log ++ [Effect.request σ.nextTag
          (Request.delete (API_URL ++ "/files/" ++ fileId) (bearer σ.app.token)),
        Effect.settled σ.nextTag false, Effect.alert "Error deleting file."] := by
  rw [run_handleDelete_respond σ hσ]
  simp [settle, handleDelete_resume, handleDelete, issue, Response.fulfilled]

theorem delete_rejected_keeps_collection_witness :
    signedIn.WF ∧
    (run signedIn [Event.handleDelete "a" true,
      Event.respond 2 (Response.error 404)]).app.files = [recA, recB] :=
  ⟨by decide, (delete_rejected_keeps_collection signedIn (by decide) "a" 404).1.trans (by decide)⟩

/-! ## Out-of-order and late list responses (C1, C2) -/

theorem fetchFiles_WF (σ : Sys) (hσ : σ.WF) (authToken sort filter search : String) :
    (fetchFiles σ authToken sort filter search).WF := by
  intro p hp
  simp only [fetchFiles, issue, List.mem_append, List.mem_singleton] at hp ⊢
  rcases hp with hp | rfl
  · exact Nat.lt_succ_of_lt (hσ p hp)
  · exact Nat.lt_succ_self _

theorem lookupCont_fetchFiles (σ : Sys) (hσ : σ.WF) (authToken sort filter search : String) :
    lookupCont σ.nextTag (fetchFiles σ authToken sort filter search).pending
      = some Cont.fetchFiles :=
  lookupCont_append_fresh σ.pending σ.nextTag Cont.fetchFiles hσ

/-- C1, refuted as stated: `alice` presses Apply Filters (R1), switches to "Sort by
Size" and presses it again (R2); R2 is answered `[recB]`, then R1 is answered
`[recA]`. The collection held afterwards is R1's result, not R2's. -/
theorem staleness_counterexample :
    (run signedIn [Event.applyFilters, Event.setSortBy "size", Event.applyFilters,
      Event.respond 3 (Response.ok [recB]), Event.respond 2 (Response.ok [recA])]).app.files
        = [recA] ∧
    (run signedIn [Event.applyFilters, Event.setSortBy "size", Event.applyFilters,
      Event.respond 3 (Response.ok [recB]), Event.respond 2 (Response.ok [recA])]).app.files
        ≠ [recB] := by
  decide

/-- C1, amended: for two list refreshes R1 and R2 started through `fetchFiles` in
this order and any two successful results, if the responses resolve in the order
R2 then R1, the collection held after R2's response is R2's result and the
collection held after R1's response is R1's result: the response that resolves
last is the one that stays. -/
theorem last_response_wins (σ : Sys) (hσ : σ.WF)
    (token₁ sort₁ filter₁ search₁ token₂ sort₂ filter₂ search₂ : String)
    (data₁ data₂ : List FileRecord) :
    (run (fetchFiles (fetchFiles σ token₁ sort₁ filter₁ search₁) token₂ sort₂ filter₂ search₂)
      [Event.respond (σ.nextTag + 1) (Response.ok data₂)]).app.files = data₂ ∧
    (run (fetchFiles (fetchFiles σ token₁ sort₁ filter₁ search₁) token₂ sort₂ filter₂ search₂)
      [Event.respond (σ.nextTag + 1) (Response.ok data₂),
       Event.respond σ.nextTag (Response.ok data₁)]).app.files = data₁ := by
  have h1 := fetchFiles_WF σ hσ token₁ sort₁ filter₁ search₁
  have hl2 := lookupCont_fetchFiles _ h1 token₂ sort₂ filter₂ search₂
  have hn : (fetchFiles σ token₁ sort₁ filter₁ search₁).nextTag = σ.nextTag + 1 := rfl
  rw [hn] at hl2
  have hl1 : lookupCont σ.nextTag
      (dropTag (σ.nextTag + 1)
        (fetchFiles (fetchFiles σ token₁ sort₁ filter₁ search₁)
          token₂ sort₂ filter₂ search₂).pending) = some Cont.fetchFiles := by
    rw [lookupCont_dropTag _ _ _ (Nat.ne_of_lt (Nat.lt_succ_self _))]
    have : (fetchFiles (fetchFiles σ token₁ sort₁ filter₁ search₁)
        token₂ sort₂ filter₂ search₂).pending =
        (fetchFiles σ token₁ sort₁ filter₁ search₁).pending
          ++ [(σ.nextTag + 1, Cont.fetchFiles)] := rfl
    rw [this, lookupCont_append_old _ _ _ _ (Nat.ne_of_lt (Nat.lt_succ_self _))]
    exact lookupCont_fetchFiles σ hσ token₁ sort₁ filter₁ search₁
  constructor
  · simp only [run, List.foldl, step, hl2]
    simp [settle, fetchFiles_resume]
  · simp only [run, List.foldl, step, hl2]
    simp only [settle, fetchFiles_resume, hl1]

theorem last_response_wins_witness :
    signedIn.WF ∧
    (run (fetchFiles (fetchFiles signedIn "tok" "date" "" "") "tok" "size" "" "")
      [Event.respond 3 (Response.ok [recB]),
       Event.respond 2 (Response.ok [recA])]).app.files = [recA] :=
  ⟨by decide, (last_response_wins signedIn (by decide) "tok" "date" "" "" "tok" "size" "" ""
    [recA] [recB]).2⟩

/-- C2, refuted as stated: the list request of `alice`'s sign-in is still pending
when she signs out; its response `[recA]` arrives afterwards and fills the
collection although no user is signed in. -/
theorem late_response_counterexample :
    (run (Sys.init []) [Event.authStateChanged (some alice), Event.respond 0 (Response.idToken "tok"),
      Event.authStateChanged none]).app.files = [] ∧
    (run (Sys.init []) [Event.authStateChanged (some alice), Event.respond 0 (Response.idToken "tok"),
      Event.authStateChanged none]).app.user = none ∧
    (run (Sys.init []) [Event.authStateChanged (some alice), Event.respond 0 (Response.idToken "tok"),
      Event.authStateChanged none, Event.respond 1 (Response.ok [recA])]).app.user = none ∧
    (run (Sys.init []) [Event.authStateChanged (some alice), Event.respond 0 (Response.idToken "tok"),
      Event.authStateChanged none, Event.respond 1 (Response.ok [recA])]).app.files ≠ [] := by
  decide

/-- C2, amended: for a list request issued by `fetchFiles` before a sign-out, the
sign-out transition empties the collection, and a successful response arriving
after it is applied: the collection held is then the response's data, while
user and token stay absent and the view stays the login screen. -/
theorem late_response_is_applied (σ : Sys) (hσ : σ.WF) (authToken sort filter search : String)
    (data : List FileRecord) :
    (run (fetchFiles σ authToken sort filter search)
      [Event.authStateChanged none]).app.files = [] ∧
    (run (fetchFiles σ authToken sort filter search)
      [Event.authStateChanged none, Event.respond σ.nextTag (Response.ok data)]).app.files
        = data ∧
    (run (fetchFiles σ authToken sort filter search)
      [Event.authStateChanged none, Event.respond σ.nextTag (Response.ok data)]).app.user
        = none ∧
    (run (fetchFiles σ authToken sort filter search)
      [Event.authStateChanged none, Event.respond σ.nextTag (Response.ok data)]).app.token
        = "" ∧
    render (run (fetchFiles σ authToken sort filter search)
      [Event.authStateChanged none, Event.respond σ.nextTag (Response.ok data)]).app
        = View.loginScreen := by
  have hl := lookupCont_fetchFiles σ hσ authToken sort filter search
  have hp : (onAuthStateChanged (fetchFiles σ authToken sort filter search) none).pending
      = (fetchFiles σ authToken sort filter search).pending := rfl
  refine ⟨rfl, ?_, ?_, ?_, ?_⟩ <;>
    simp [run, step, hp, hl, settle, fetchFiles_resume, onAuthStateChanged, render]

theorem late_response_is_applied_witness :
    signedIn.WF ∧
    (run (fetchFiles signedIn "tok" "date" "" "")
      [Event.authStateChanged none, Event.respond 2 (Response.ok [recA])]).app.files = [recA] :=
  ⟨by decide, (late_response_is_applied signedIn (by decide) "tok" "date" "" "" [recA]).2.1⟩

/-! ## The batch answered request by request (C4, C5) -/

theorem dropTag_append_fresh (old : List (Nat × Cont)) (t : Nat) (k : Cont)
    (h : ∀ p ∈ old, p.1 < t) : dropTag t (old ++ [(t, k)]) = old := by
  have h1 : dropTag t old = old := by
    apply List.filter_eq_self.mpr
    intro p hp
    simpa using Nat.ne_of_lt (h p hp)
  simp only [dropTag] at h1 ⊢
  rw [List.filter_append, h1]
  simp

theorem pendingUpload_none (old : List (Nat × Cont))
    (h : ∀ p ∈ old, p.2.isUpload = false) : pendingUpload old = none := by
  induction old with
  | nil => rfl
  | cons p ps ih =>
    have hp := h p (List.mem_cons_self _ _)
    have ih' := ih (fun q hq => h q (List.mem_cons_of_mem _ hq))
    obtain ⟨t, k⟩ := p
    simp only [pendingUpload] at ih' ⊢
    cases k with
    | handleUpload sel i token sortBy filterType searchQuery => simp [Cont.isUpload] at hp
    | getIdToken u => rw [List.findSome?_cons]; exact ih'
    | fetchFiles => rw [List.findSome?_cons]; exact ih'
    | handleDelete files fileId => rw [List.findSome?_cons]; exact ih'

theorem pendingUpload_append (old : List (Nat × Cont))
    (h : ∀ p ∈ old, p.2.isUpload = false) (t : Nat) (k : Cont) :
    pendingUpload (old ++ [(t, k)]) = pendingUpload [(t, k)] := by
  have h0 := pendingUpload_none old h
  simp only [pendingUpload] at h0 ⊢
  rw [List.findSome?_append, h0]
  rfl

theorem UploadAt.step_rejected {σ : Sys} {old : List (Nat × Cont)} {t : Nat}
    {sel : List LocalFile} {i : Nat} {token sortBy filterType searchQuery : String}
    (h : UploadAt σ old t sel i token sortBy filterType searchQuery) (status : Nat) :
    step σ (Event.respond t (Response.error status)) =
      { σ with
        app := { σ.app with loading := false },
        pending := old,
        log := σ.log ++ [Effect.settled t false, Effect.alert "Upload failed."] } := by
  have hl := lookupCont_append_fresh old t
    (Cont.handleUpload sel i token sortBy filterType searchQuery) h.fresh
  have hd := dropTag_append_fresh old t
    (Cont.handleUpload sel i token sortBy filterType searchQuery) h.fresh
  simp [step, h.pending, hl, settle, hd, handleUpload_resume, Response.fulfilled]

theorem UploadAt.step_accepted_more {σ : Sys} {old : List (Nat × Cont)} {t : Nat}
    {sel : List LocalFile} {i : Nat} {token sortBy filterType searchQuery : String}
    (h : UploadAt σ old t sel i token sortBy filterType searchQuery)
    (data : List FileRecord) (hi : i + 1 < sel.length) :
    step σ (Event.respond t (Response.ok data)) =
      { σ with
        pending := old ++ [(t + 1, Cont.handleUpload sel (i + 1) token sortBy filterType searchQuery)],
        nextTag := t + 2,
        log := σ.log ++ [Effect.settled t true,
          Effect.request (t + 1)
            (Request.post (API_URL ++ "/upload") [("file", sel[i + 1])] (bearer token))] } := by
  have hl := lookupCont_append_fresh old t
    (Cont.handleUpload sel i token sortBy filterType searchQuery) h.fresh
  have hd := dropTag_append_fresh old t
    (Cont.handleUpload sel i token sortBy filterType searchQuery) h.fresh
  simp [step, h.pending, hl, settle, hd, handleUpload_resume, Response.fulfilled, uploadLoop, hi,
    issue, h.nextTag]

theorem UploadAt.step_accepted_last {σ : Sys} {old : List (Nat × Cont)} {t : Nat}
    {sel : List LocalFile} {i : Nat} {token sortBy filterType searchQuery : String}
    (h : UploadAt σ old t sel i token sortBy filterType searchQuery)
    (data : List FileRecord) (hi : ¬ i + 1 < sel.length) :
    step σ (Event.respond t (Response.ok data)) =
      { σ with
        app := { σ.app with loading := false },
        pending := old ++ [(t + 1, Cont.fetchFiles)],
        nextTag := t + 2,
        log := σ.log ++ [Effect.settled t true,
          Effect.request (t + 1) (Request.get (API_URL ++ "/files")
            (buildParams sortBy filterType searchQuery) (bearer token))] } := by
  have hl := lookupCont_append_fresh old t
    (Cont.handleUpload sel i token sortBy filterType searchQuery) h.fresh
  have hd := dropTag_append_fresh old t
    (Cont.handleUpload sel i token sortBy filterType searchQuery) h.fresh
  simp [step, h.pending, hl, settle, hd, handleUpload_resume, Response.fulfilled, uploadLoop, hi,
    issue, h.nextTag, fetchFiles]

theorem serveUploads_idle (rejected : Nat → Bool) (fuel : Nat) (σ : Sys)
    (h : pendingUpload σ.pending = none) : serveUploads rejected fuel σ = σ := by
  cases fuel with
  | zero => rfl
  | succ n => simp [serveUploads, h]

theorem UploadAt.pendingUpload_eq {σ : Sys} {old : List (Nat × Cont)} {t : Nat}
    {sel : List LocalFile} {i : Nat} {token sortBy filterType searchQuery : String}
    (h : UploadAt σ old t sel i token sortBy filterType searchQuery) :
    pendingUpload σ.pending = some (t, i) := by
  rw [h.pending, pendingUpload_append old h.others]
  rfl

theorem uploadTraceFrom_drop (rejected : Nat → Bool) (token sortBy filterType searchQuery : String)
    (sel : List LocalFile) (i t : Nat) (hi : i < sel.length) :
    uploadTraceFrom rejected token sortBy filterType searchQuery (sel.drop i) i t =
      Effect.request t (Request.post (API_URL ++ "/upload") [("file", sel[i])] (bearer token)) ::
      Effect.settled t (!rejected i) ::
      (if rejected i then [Effect.alert "Upload failed."]
       else uploadTraceFrom rejected token sortBy filterType searchQuery
         (sel.drop (i + 1)) (i + 1) (t + 1)) := by
  rw [List.drop_eq_getElem_cons hi]
  rfl

/-- The backend answering a batch whose post for index `i` is in flight: the log
grows by the trace of the remaining files, and afterwards no upload is in
flight and `loading` is false. -/
theorem serveUploads_from (rejected : Nat → Bool) :
    ∀ (fuel : Nat) (σ : Sys) (old : List (Nat × Cont)) (t : Nat) (sel : List LocalFile) (i : Nat)
      (token sortBy filterType searchQuery : String),
      UploadAt σ old t sel i token sortBy filterType searchQuery → sel.length - i ≤ fuel →
      (serveUploads rejected fuel σ).log = σ.log ++
          (uploadTraceFrom rejected token sortBy filterType searchQuery (sel.drop i) i t).tail ∧
        pendingUpload (serveUploads rejected fuel σ).pending = none ∧
        (serveUploads rejected fuel σ).app.loading = false := by
  intro fuel
  induction fuel with
  | zero =>
    intro σ old t sel i token sortBy filterType searchQuery h hf
    have := h.inRange
    omega
  | succ n ih =>
    intro σ old t sel i token sortBy filterType searchQuery h hf
    have hi := h.inRange
    rw [uploadTraceFrom_drop rejected token sortBy filterType searchQuery sel i t hi]
    simp only [serveUploads, h.pendingUpload_eq, List.tail_cons]
    by_cases hr : rejected i = true
    · simp only [hr, if_true, h.step_rejected]
      rw [serveUploads_idle]
      · refine ⟨by simp, pendingUpload_none old h.others, rfl⟩
      · exact pendingUpload_none old h.others
    · have hr' : rejected i = false := by simpa using hr
      simp only [hr', Bool.false_eq_true, if_false]
      by_cases hm : i + 1 < sel.length
      · rw [h.step_accepted_more [] hm]
        have h' : UploadAt
            { σ with
              pending := old ++ [(t + 1,
                Cont.handleUpload sel (i + 1) token sortBy filterType searchQuery)],
              nextTag := t + 2,
              log := σ.log ++ [Effect.settled t true,
                Effect.request (t + 1)
                  (Request.post (API_URL ++ "/upload") [("file", sel[i + 1])] (bearer token))] }
            old (t + 1) sel (i + 1) token sortBy filterType searchQuery :=
          { pending := rfl, nextTag := rfl,
            fresh := fun p hp => Nat.lt_succ_of_lt (h.fresh p hp),
            others := h.others, inRange := hm }
        obtain ⟨h1, h2, h3⟩ := ih _ old (t + 1) sel (i + 1) token sortBy filterType searchQuery h'
          (by omega)
        refine ⟨?_, h2, h3⟩
        rw [h1, uploadTraceFrom_drop rejected token sortBy filterType searchQuery sel (i + 1)
          (t + 1) hm]
        simp
      · rw [h.step_accepted_last [] hm, serveUploads_idle]
        · have hd : sel.drop (i + 1) = [] := List.drop_eq_nil_of_le (by omega)
          refine ⟨?_, ?_, rfl⟩
          · simp [hd, uploadTraceFrom]
          · rw [pendingUpload_append old h.others]; rfl
        · show pendingUpload (old ++ [(t + 1, Cont.fetchFiles)]) = none
          rw [pendingUpload_append old h.others]; rfl

theorem handleUpload_uploadAt (σ : Sys) (hσ : σ.WF) (hu : σ.noUpload) (sel : List LocalFile)
    (hsel : sel ≠ []) :
    UploadAt (handleUpload σ (some sel)) σ.pending σ.nextTag sel 0
      σ.app.token σ.app.sortBy σ.app.filterType σ.app.searchQuery ∧
    (handleUpload σ (some sel)).log = σ.log ++
      [Effect.request σ.nextTag (Request.post (API_URL ++ "/upload")
        [("file", sel.head hsel)] (bearer σ.app.token))] := by
  obtain ⟨file, rest, rfl⟩ := List.exists_cons_of_ne_nil hsel
  refine ⟨⟨?_, ?_, hσ, hu, ?_⟩, ?_⟩ <;>
    simp [handleUpload, uploadLoop, issue]

/-- The log of a batch answered by the backend: the log before it followed by the
trace of the whole batch. Fuel equal to the number of files is enough, since
no upload is in flight afterwards. -/
theorem serveUploads_handleUpload (rejected : Nat → Bool) (σ : Sys) (hσ : σ.WF)
    (hu : σ.noUpload) (sel : List LocalFile) (hsel : sel ≠ []) :
    (serveUploads rejected sel.length (handleUpload σ (some sel))).log = σ.log ++
        uploadTraceFrom rejected σ.app.token σ.app.sortBy σ.app.filterType σ.app.searchQuery
          sel 0 σ.nextTag ∧
      pendingUpload (serveUploads rejected sel.length (handleUpload σ (some sel))).pending
        = none := by
  obtain ⟨hat, hlog⟩ := handleUpload_uploadAt σ hσ hu sel hsel
  obtain ⟨h1, h2, -⟩ := serveUploads_from rejected sel.length _ _ _ _ _ _ _ _ _ hat (by omega)
  refine ⟨?_, h2⟩
  rw [h1, hlog]
  obtain ⟨file, rest, rfl⟩ := List.exists_cons_of_ne_nil hsel
  simp [uploadTraceFrom]

theorem drop_log_serveUploads (rejected : Nat → Bool) (σ : Sys) (hσ : σ.WF)
    (hu : σ.noUpload) (sel : List LocalFile) (hsel : sel ≠ []) :
    (serveUploads rejected sel.length (handleUpload σ (some sel))).log.drop σ.log.length =
      uploadTraceFrom rejected σ.app.token σ.app.sortBy σ.app.filterType σ.app.searchQuery
        sel 0 σ.nextTag := by
  rw [(serveUploads_handleUpload rejected σ hσ hu sel hsel).1, List.drop_left]

/-! ### What the trace of a batch shows -/

theorem inFlightUploads_cons_pair (t : Nat) (url : String) (form : List (String × LocalFile))
    (authorization : String) (b : Bool) (rest : List Effect) :
    inFlightUploads (Effect.request t (Request.post url form authorization) ::
      Effect.settled t b :: rest) = inFlightUploads rest := by
  simp [inFlightUploads, List.foldl_cons, trackUploads]

/-- When every file from index `i` on is accepted, the trace is all the posts with
their settlements followed by one list request, and nothing else. -/
theorem uploadTraceFrom_accepted (rejected : Nat → Bool)
    (token sortBy filterType searchQuery : String) :
    ∀ (rest : List LocalFile) (i t : Nat), (∀ j, j < rest.length → rejected (i + j) = false) →
      ∃ front,
        uploadTraceFrom rejected token sortBy filterType searchQuery rest i t =
          front ++ [Effect.request (t + rest.length) (Request.get (API_URL ++ "/files")
            (buildParams sortBy filterType searchQuery) (bearer token))] ∧
        uploadRequests front = rest.map formOf ∧
        listRequests front = [] ∧
        alerts front = [] ∧
        inFlightUploads front = [] := by
  intro rest
  induction rest with
  | nil =>
    intro i t _
    exact ⟨[], rfl, rfl, rfl, rfl, rfl⟩
  | cons file rest ih =>
    intro i t h
    have h0 : rejected i = false := by simpa using h 0 (Nat.zero_lt_succ _)
    obtain ⟨front, e, hu, hl, ha, hf⟩ := ih (i + 1) (t + 1) (fun j hj => by
      have := h (j + 1) (Nat.succ_lt_succ hj)
      rwa [show i + 1 + j = i + (j + 1) by omega])
    refine ⟨Effect.request t (Request.post (API_URL ++ "/upload") [("file", file)] (bearer token))
      :: Effect.settled t true :: front, ?_, ?_, ?_, ?_, ?_⟩
    · simp only [uploadTraceFrom, h0, Bool.not_false, Bool.false_eq_true, if_false, e,
        List.length_cons, List.cons_append]
      rw [show t + 1 + rest.length = t + (rest.length + 1) by omega]
    · simp only [uploadRequests, List.filterMap_cons, List.map_cons, formOf] at hu ⊢
      rw [hu]
    · simpa only [listRequests, List.filterMap_cons] using hl
    · simpa only [alerts, List.filterMap_cons] using ha
    · rw [inFlightUploads_cons_pair]; exact hf

/-- When the file at index `i + k` is the first one rejected from index `i` on, the
trace holds the posts of the files up to that one, one alert, and no list
request. -/
theorem uploadTraceFrom_rejected (rejected : Nat → Bool)
    (token sortBy filterType searchQuery : String) :
    ∀ (rest : List LocalFile) (i t k : Nat), k < rest.length → rejected (i + k) = true →
      (∀ j, j < k → rejected (i + j) = false) →
      uploadRequests (uploadTraceFrom rejected token sortBy filterType searchQuery rest i t)
        = (rest.take (k + 1)).map formOf ∧
      alerts (uploadTraceFrom rejected token sortBy filterType searchQuery rest i t)
        = ["Upload failed."] ∧
      listRequests (uploadTraceFrom rejected token sortBy filterType searchQuery rest i t)
        = [] := by
  intro rest
  induction rest with
  | nil =>
    intro i t k hk
    simp at hk
  | cons file rest ih =>
    intro i t k hk hr hlt
    cases k with
    | zero =>
      have h0 : rejected i = true := by simpa using hr
      simp [uploadTraceFrom, h0, uploadRequests, alerts, listRequests, formOf]
    | succ k =>
      have h0 : rejected i = false := by simpa using hlt 0 (Nat.zero_lt_succ _)
      obtain ⟨hu, ha, hl⟩ := ih (i + 1) (t + 1) k (Nat.lt_of_succ_lt_succ hk)
        (by rwa [show i + 1 + k = i + (k + 1) by omega])
        (fun j hj => by
          have := hlt (j + 1) (Nat.succ_lt_succ hj)
          rwa [show i + 1 + j = i + (j + 1) by omega])
      refine ⟨?_, ?_, ?_⟩
      · simp only [uploadTraceFrom, h0, Bool.false_eq_true, if_false, uploadRequests,
          List.filterMap_cons, List.take_succ_cons, List.map_cons, formOf] at hu ⊢
        rw [hu]
      · simpa only [uploadTraceFrom, h0, Bool.false_eq_true, if_false, alerts,
          List.filterMap_cons] using ha
      · simpa only [uploadTraceFrom, h0, Bool.false_eq_true, if_false, listRequests,
          List.filterMap_cons] using hl

/-- C4, refuted as stated: `alice` selects three files of which the backend rejects
the first two. One upload request is issued, not three, and one failure is
reported, not two. -/
theorem batch_failure_counterexample :
    uploadRequests ((serveUploads (fun i => i == 0 || i == 1) 3
        (handleUpload signedIn (some ["x.txt", "y.txt", "z.txt"]))).log.drop signedIn.log.length)
      = [formOf "x.txt"] ∧
    (uploadRequests ((serveUploads (fun i => i == 0 || i == 1) 3
        (handleUpload signedIn (some ["x.txt", "y.txt", "z.txt"]))).log.drop
          signedIn.log.length)).length ≠ 3 ∧
    (alerts ((serveUploads (fun i => i == 0 || i == 1) 3
        (handleUpload signedIn (some ["x.txt", "y.txt", "z.txt"]))).log.drop
          signedIn.log.length)).length ≠ 2 := by
  decide

/-- C4, amended: for a non-empty batch started while no other batch is under way
and answered by the backend, `handleUpload` issues the upload requests of the
files in order up to and including the first rejected one and none for the
files after it, and reports one alert "Upload failed." whatever the number of
files that would be rejected; when no file is rejected it issues all the
requests and reports nothing. -/
theorem upload_stops_at_first_failure (rejected : Nat → Bool) (σ : Sys) (hσ : σ.WF)
    (hu : σ.noUpload) (sel : List LocalFile) (hsel : sel ≠ []) :
    ((∀ j, j < sel.length → rejected j = false) →
      uploadRequests ((serveUploads rejected sel.length
          (handleUpload σ (some sel))).log.drop σ.log.length) = sel.map formOf ∧
      alerts ((serveUploads rejected sel.length
          (handleUpload σ (some sel))).log.drop σ.log.length) = []) ∧
    (∀ k, k < sel.length → rejected k = true → (∀ j, j < k → rejected j = false) →
      uploadRequests ((serveUploads rejected sel.length
          (handleUpload σ (some sel))).log.drop σ.log.length) = (sel.take (k + 1)).map formOf ∧
      alerts ((serveUploads rejected sel.length
          (handleUpload σ (some sel))).log.drop σ.log.length) = ["Upload failed."]) := by
  rw [drop_log_serveUploads rejected σ hσ hu sel hsel]
  constructor
  · intro hall
    obtain ⟨front, e, hup, -, ha, -⟩ := uploadTraceFrom_accepted rejected σ.app.token σ.app.sortBy
      σ.app.filterType σ.app.searchQuery sel 0 σ.nextTag (fun j hj => by simpa using hall j hj)
    rw [e]
    constructor
    · simpa [uploadRequests] using hup
    · simpa [alerts] using ha
  · intro k hk hr hlt
    obtain ⟨hup, ha, -⟩ := uploadTraceFrom_rejected rejected σ.app.token σ.app.sortBy
      σ.app.filterType σ.app.searchQuery sel 0 σ.nextTag k hk (by simpa using hr)
      (fun j hj => by simpa using hlt j hj)
    exact ⟨hup, ha⟩

theorem upload_stops_at_first_failure_witness :
    signedIn.WF ∧ signedIn.noUpload ∧
    uploadRequests ((serveUploads (fun i => i == 1 || i == 2) 3
        (handleUpload signedIn (some ["x.txt", "y.txt", "z.txt"]))).log.drop signedIn.log.length)
      = [formOf "x.txt", formOf "y.txt"] ∧
    alerts ((serveUploads (fun i => i == 1 || i == 2) 3
        (handleUpload signedIn (some ["x.txt", "y.txt", "z.txt"]))).log.drop signedIn.log.length)
      = ["Upload failed."] :=
  ⟨by decide, by decide,
    (upload_stops_at_first_failure (fun i => i == 1 || i == 2) signedIn (by decide) (by decide)
      ["x.txt", "y.txt", "z.txt"] (by decide)).2 1 (by decide) (by decide) (by decide)⟩

/-- C5, refuted as stated: `alice` selects three files of which the backend rejects
the second. No list request follows the batch. -/
theorem refresh_after_failure_counterexample :
    listRequests ((serveUploads (fun i => i == 1) 3
        (handleUpload signedIn (some ["x.txt", "y.txt", "z.txt"]))).log.drop signedIn.log.length)
      = [] ∧
    (listRequests ((serveUploads (fun i => i == 1) 3
        (handleUpload signedIn (some ["x.txt", "y.txt", "z.txt"]))).log.drop
          signedIn.log.length)).length ≠ 1 := by
  decide

/-- C5, amended: for a non-empty batch started while no other batch is under way
and answered by the backend, when every upload succeeds `handleUpload` triggers
a list refresh exactly once, as its last effect, after all the upload requests
were issued and settled, with the token and criteria held when the batch
started; when some upload is rejected it triggers no list refresh. -/
theorem refresh_once_iff_all_succeed (rejected : Nat → Bool) (σ : Sys) (hσ : σ.WF)
    (hu : σ.noUpload) (sel : List LocalFile) (hsel : sel ≠ []) :
    ((∀ j, j < sel.length → rejected j = false) →
      listRequests ((serveUploads rejected sel.length
          (handleUpload σ (some sel))).log.drop σ.log.length)
        = [(buildParams σ.app.sortBy σ.app.filterType σ.app.searchQuery, bearer σ.app.token)] ∧
      ∃ front tag,
        (serveUploads rejected sel.length (handleUpload σ (some sel))).log.drop σ.log.length
          = front ++ [Effect.request tag (Request.get (API_URL ++ "/files")
              (buildParams σ.app.sortBy σ.app.filterType σ.app.searchQuery)
              (bearer σ.app.token))] ∧
        uploadRequests front = sel.map formOf ∧
        inFlightUploads front = [] ∧
        listRequests front = []) ∧
    (∀ k, k < sel.length → rejected k = true →
      listRequests ((serveUploads rejected sel.length
          (handleUpload σ (some sel))).log.drop σ.log.length) = []) := by
  rw [drop_log_serveUploads rejected σ hσ hu sel hsel]
  constructor
  · intro hall
    obtain ⟨front, e, hup, hl, -, hf⟩ := uploadTraceFrom_accepted rejected σ.app.token
      σ.app.sortBy σ.app.filterType σ.app.searchQuery sel 0 σ.nextTag
      (fun j hj => by simpa using hall j hj)
    refine ⟨?_, front, _, e, hup, hf, hl⟩
    rw [e]
    simp only [listRequests, List.filterMap_append] at hl ⊢
    rw [hl]
    rfl
  · intro k hk hr
    have hex : ∃ k, k < sel.length ∧ rejected k = true := ⟨k, hk, hr⟩
    have hk0 := Nat.find_spec hex
    have hmin : ∀ j, j < Nat.find hex → rejected j = false := fun j hj => by
      have := Nat.find_min hex hj
      have hjl : j < sel.length := Nat.lt_trans hj hk0.1
      simpa [hjl] using this
    exact (uploadTraceFrom_rejected rejected σ.app.token σ.app.sortBy σ.app.filterType
      σ.app.searchQuery sel 0 σ.nextTag (Nat.find hex) hk0.1 (by simpa using hk0.2)
      (fun j hj => by simpa using hmin j hj)).2.2

theorem refresh_once_iff_all_succeed_witness :
    signedIn.WF ∧ signedIn.noUpload ∧
    listRequests ((serveUploads (fun _ => false) 3
        (handleUpload signedIn (some ["x.txt", "y.txt", "z.txt"]))).log.drop signedIn.log.length)
      = [([("sort_by", "date")], "Bearer tok")] :=
  ⟨by decide, by decide,
    ((refresh_once_iff_all_succeed (fun _ => false) signedIn (by decide) (by decide)
      ["x.txt", "y.txt", "z.txt"] (by decide)).1 (fun _ _ => rfl)).1.trans (by decide)⟩

/-! ## Uploads under any interleaving (C8) -/

theorem foldl_trackUploads_false (log : List Effect) (fl : List Nat) :
    (log.foldl trackUploads (false, fl)).1 = false := by
  induction log generalizing fl with
  | nil => rfl
  | cons e rest ih =>
    rw [List.foldl_cons]
    cases e with
    | request tag req => cases req <;> simp [trackUploads, ih]
    | settled tag b => simp [trackUploads, ih]
    | alert msg => simp [trackUploads, ih]
    | consoleError msg => simp [trackUploads, ih]

theorem uploadsSequential_append_left (pre rest : List Effect)
    (h : uploadsSequential (pre ++ rest) = true) : uploadsSequential pre = true := by
  simp only [uploadsSequential, List.foldl_append] at h ⊢
  cases hst : List.foldl trackUploads (true, []) pre with
  | mk b fl =>
    cases b with
    | true => rfl
    | false => rw [hst, foldl_trackUploads_false] at h; exact absurd h (by decide)

theorem uploadsSequential_concat (log : List Effect) (e : Effect) :
    uploadsSequential (log ++ [e]) = (trackUploads (uploadsSequential log, inFlightUploads log) e).1 ∧
    inFlightUploads (log ++ [e]) = (trackUploads (uploadsSequential log, inFlightUploads log) e).2 := by
  simp [uploadsSequential, inFlightUploads, List.foldl_append]

/-- In a sequential log at most one upload request is in flight. -/
theorem inFlightUploads_length_le_one (log : List Effect) (h : uploadsSequential log = true) :
    (inFlightUploads log).length ≤ 1 := by
  induction log using List.reverseRecOn with
  | nil => simp [inFlightUploads]
  | append_singleton log e ih =>
    have hpre := uploadsSequential_append_left log [e] h
    have ih' := ih hpre
    obtain ⟨h1, h2⟩ := uploadsSequential_concat log e
    rw [h2]
    rw [h1] at h
    cases e with
    | request tag req =>
      cases req with
      | post url form authorization =>
        simp only [trackUploads, Bool.and_eq_true, List.isEmpty_iff] at h ⊢
        simp [h.2]
      | get url params authorization => simpa [trackUploads] using ih'
      | delete url authorization => simpa [trackUploads] using ih'
      | getIdToken uid => simpa [trackUploads] using ih'
    | settled tag b =>
      simp only [trackUploads]
      exact Nat.le_trans (List.length_filter_le _ _) ih'
    | alert msg => simpa [trackUploads] using ih'
    | consoleError msg => simpa [trackUploads] using ih'

/-- In a sequential log every upload request meets no upload in flight. -/
theorem inFlightUploads_before_post (pre rest : List Effect) (tag : Nat) (url : String)
    (form : List (String × LocalFile)) (authorization : String)
    (h : uploadsSequential (pre ++ Effect.request tag (Request.post url form authorization) :: rest)
      = true) : inFlightUploads pre = [] := by
  have h' : uploadsSequential
      ((pre ++ [Effect.request tag (Request.post url form authorization)]) ++ rest) = true := by
    simpa using h
  have h1 := uploadsSequential_append_left _ _ h'
  rw [(uploadsSequential_concat pre _).1] at h1
  simp only [trackUploads, Bool.and_eq_true, List.isEmpty_iff] at h1
  exact h1.2

theorem uploadTags_append (a b : List (Nat × Cont)) :
    uploadTags (a ++ b) = uploadTags a ++ uploadTags b := by
  simp [uploadTags]

theorem uploadTags_dropTag (u : Nat) (pending : List (Nat × Cont)) :
    uploadTags (dropTag u pending) = (uploadTags pending).filter fun t => t != u := by
  induction pending with
  | nil => rfl
  | cons p ps ih =>
    simp only [uploadTags, dropTag] at ih ⊢
    by_cases h1 : p.1 = u <;> by_cases h2 : p.2.isUpload = true
    · have e1 : (p.1 != u) = false := by simp [h1]
      simp only [List.filter_cons, e1, h2, if_true, List.map_cons, Bool.false_eq_true, if_false]
      exact ih
    · have e1 : (p.1 != u) = false := by simp [h1]
      simp only [List.filter_cons, e1, h2, Bool.false_eq_true, if_false]
      exact ih
    · have e1 : (p.1 != u) = true := by simp [h1]
      simp only [List.filter_cons, e1, h2, if_true, List.map_cons]
      rw [ih]
    · have e1 : (p.1 != u) = true := by simp [h1]
      simp only [List.filter_cons, e1, h2, if_true, Bool.false_eq_true, if_false]
      exact ih

theorem lookupCont_mem (u : Nat) (pending : List (Nat × Cont)) (k : Cont)
    (h : lookupCont u pending = some k) : (u, k) ∈ pending := by
  simp only [lookupCont, Option.map_eq_some'] at h
  obtain ⟨p, hp, rfl⟩ := h
  have h1 := List.find?_some hp
  have h2 := List.mem_of_find?_eq_some hp
  have : p.1 = u := by simpa using h1
  rw [← this]
  exact h2

theorem BatchInv.after_settled {sel : List LocalFile} {pending : List (Nat × Cont)} {log : List Effect}
    {m : Nat} (h : BatchInv sel pending log m) (u : Nat) (b : Bool) :
    BatchInv sel (dropTag u pending) (log ++ [Effect.settled u b]) m where
  sequential := by
    rw [(uploadsSequential_concat log _).1]; exact h.sequential
  inFlight := by
    rw [(uploadsSequential_concat log _).2, uploadTags_dropTag, ← h.inFlight]; rfl
  bound := h.bound
  requests := by
    rw [← h.requests]; simp [uploadRequests]
  conts := fun p hp => h.conts p (List.mem_of_mem_filter hp)

theorem BatchInv.after_effect {sel : List LocalFile} {pending : List (Nat × Cont)} {log : List Effect}
    {m : Nat} (h : BatchInv sel pending log m) (e : Effect) (he : e.quiet = true) :
    BatchInv sel pending (log ++ [e]) m where
  sequential := by
    rw [(uploadsSequential_concat log _).1]
    cases e with
    | request tag req =>
      cases req with
      | post url form authorization => simp [Effect.quiet] at he
      | get url params authorization => exact h.sequential
      | delete url authorization => exact h.sequential
      | getIdToken uid => exact h.sequential
    | settled tag b => simp [Effect.quiet] at he
    | alert msg => exact h.sequential
    | consoleError msg => exact h.sequential
  inFlight := by
    rw [(uploadsSequential_concat log _).2, ← h.inFlight]
    cases e with
    | request tag req =>
      cases req with
      | post url form authorization => simp [Effect.quiet] at he
      | get url params authorization => rfl
      | delete url authorization => rfl
      | getIdToken uid => rfl
    | settled tag b => simp [Effect.quiet] at he
    | alert msg => rfl
    | consoleError msg => rfl
  bound := h.bound
  requests := by
    rw [← h.requests]
    cases e with
    | request tag req =>
      cases req with
      | post url form authorization => simp [Effect.quiet] at he
      | get url params authorization => simp [uploadRequests]
      | delete url authorization => simp [uploadRequests]
      | getIdToken uid => simp [uploadRequests]
    | settled tag b => simp [uploadRequests]
    | alert msg => simp [uploadRequests]
    | consoleError msg => simp [uploadRequests]
  conts := h.conts

theorem BatchInv.after_suspend {sel : List LocalFile} {pending : List (Nat × Cont)} {log : List Effect}
    {m : Nat} (h : BatchInv sel pending log m) (n : Nat) (k : Cont) (hk : k.isUpload = false) :
    BatchInv sel (pending ++ [(n, k)]) log m where
  sequential := h.sequential
  inFlight := by
    rw [h.inFlight, uploadTags_append]
    simp [uploadTags, hk]
  bound := h.bound
  requests := h.requests
  conts := by
    intro p hp hup
    rcases List.mem_append.mp hp with hp | hp
    · exact h.conts p hp hup
    · rw [List.mem_singleton.mp hp, hk] at hup
      exact absurd hup (by decide)

theorem BatchInv.after_post {sel : List LocalFile} {pending : List (Nat × Cont)} {log : List Effect}
    {m : Nat} (h : BatchInv sel pending log m) (hnone : uploadTags pending = [])
    (hm : m < sel.length) (n : Nat) (url authorization token sortBy filterType searchQuery : String) :
    BatchInv sel
      (pending ++ [(n, Cont.handleUpload sel m token sortBy filterType searchQuery)])
      (log ++ [Effect.request n (Request.post url [("file", sel[m])] authorization)])
      (m + 1) where
  sequential := by
    rw [(uploadsSequential_concat log _).1]
    simp [trackUploads, h.sequential, h.inFlight, hnone]
  inFlight := by
    rw [(uploadsSequential_concat log _).2, uploadTags_append, hnone]
    show inFlightUploads log ++ [n] = [n]
    rw [h.inFlight, hnone]
    rfl
  bound := hm
  requests := by
    have : uploadRequests (log ++ [Effect.request n (Request.post url [("file", sel[m])]
        authorization)]) = uploadRequests log ++ [formOf sel[m]] := by
      simp [uploadRequests, formOf]
    rw [this, h.requests]
    simp only [List.take_succ, List.getElem?_eq_getElem hm, Option.toList, List.map_append,
      List.map_cons, List.map_nil]
  conts := by
    intro p hp hup
    rcases List.mem_append.mp hp with hp | hp
    · have : p.1 ∈ uploadTags pending := by
        simp only [uploadTags, List.mem_map, List.mem_filter]
        exact ⟨p, ⟨hp, hup⟩, rfl⟩
      rw [hnone] at this
      exact absurd this (List.not_mem_nil _)
    · rw [List.mem_singleton.mp hp]
      exact ⟨Nat.succ_pos _, token, sortBy, filterType, searchQuery, rfl⟩

theorem BatchInv.of_lookup {sel : List LocalFile} {pending : List (Nat × Cont)}
    {log : List Effect} {m : Nat} (h : BatchInv sel pending log m) (u : Nat) (k : Cont)
    (hl : lookupCont u pending = some k) (hk : k.isUpload = true) :
    uploadTags (dropTag u pending) = [] ∧ 0 < m ∧
      ∃ token sortBy filterType searchQuery,
        k = Cont.handleUpload sel (m - 1) token sortBy filterType searchQuery := by
  have hmem := lookupCont_mem u pending k hl
  have hu : u ∈ uploadTags pending := by
    simp only [uploadTags, List.mem_map, List.mem_filter]
    exact ⟨(u, k), ⟨hmem, hk⟩, rfl⟩
  have hlen : (uploadTags pending).length ≤ 1 := by
    rw [← h.inFlight]; exact inFlightUploads_length_le_one log h.sequential
  have hone : uploadTags pending = [u] := by
    match hq : uploadTags pending with
    | [] => rw [hq] at hu; exact absurd hu (List.not_mem_nil _)
    | [x] =>
      rw [hq] at hu
      rw [List.mem_singleton.mp hu]
    | x :: y :: rest => rw [hq] at hlen; simp at hlen
  refine ⟨?_, h.conts (u, k) hmem hk⟩
  rw [uploadTags_dropTag, hone]
  simp

theorem BatchState.same {sel : List LocalFile} {base : List Effect} {σ σ' : Sys}
    (h : BatchState sel base σ) (hp : σ'.pending = σ.pending) (hl : σ'.log = σ.log) :
    BatchState sel base σ' := by
  obtain ⟨log, m, e, inv⟩ := h
  exact ⟨log, m, by rw [hl, e], by rw [hp]; exact inv⟩

theorem BatchState.of_settled {sel : List LocalFile} {base : List Effect} {σ σ' : Sys}
    (h : BatchState sel base σ) (u : Nat) (b : Bool)
    (hp : σ'.pending = dropTag u σ.pending) (hl : σ'.log = σ.log ++ [Effect.settled u b]) :
    BatchState sel base σ' := by
  obtain ⟨log, m, e, inv⟩ := h
  exact ⟨log ++ [Effect.settled u b], m, by rw [hl, e, List.append_assoc],
    by rw [hp]; exact inv.after_settled u b⟩

theorem BatchState.of_effect {sel : List LocalFile} {base : List Effect} {σ σ' : Sys}
    (h : BatchState sel base σ) (e : Effect) (he : e.quiet = true)
    (hp : σ'.pending = σ.pending) (hl : σ'.log = σ.log ++ [e]) :
    BatchState sel base σ' := by
  obtain ⟨log, m, e', inv⟩ := h
  exact ⟨log ++ [e], m, by rw [hl, e', List.append_assoc], by rw [hp]; exact inv.after_effect e he⟩

theorem BatchState.of_issue {sel : List LocalFile} {base : List Effect} {σ : Sys}
    (h : BatchState sel base σ) (req : Request) (k : Cont) (hk : k.isUpload = false)
    (hq : (Effect.request σ.nextTag req).quiet = true) :
    BatchState sel base (issue σ req k) := by
  obtain ⟨log, m, e, inv⟩ := h
  exact ⟨log ++ [Effect.request σ.nextTag req], m,
    by simp only [FileManager.issue]; rw [e, List.append_assoc],
    (inv.after_effect _ hq).after_suspend σ.nextTag k hk⟩

theorem BatchState.of_fetchFiles {sel : List LocalFile} {base : List Effect} {σ : Sys}
    (h : BatchState sel base σ) (authToken sort filter search : String) :
    BatchState sel base (fetchFiles σ authToken sort filter search) := by
  have h' : BatchState sel base { σ with app := { σ.app with loading := true } } :=
    h.same rfl rfl
  exact h'.of_issue _ _ rfl rfl

theorem BatchState.of_settle {sel : List LocalFile} {base : List Effect} {σ : Sys}
    (h : BatchState sel base σ) (u : Nat) (k : Cont) (resp : Response)
    (hl : lookupCont u σ.pending = some k) : BatchState sel base (settle σ u k resp) := by
  have h1 : BatchState sel base
      { σ with pending := dropTag u σ.pending,
               log := σ.log ++ [Effect.settled u resp.fulfilled] } :=
    h.of_settled u resp.fulfilled rfl rfl
  cases k with
  | getIdToken usr =>
    cases resp with
    | ok data => exact h
    | error status => exact h1
    | idToken accessToken =>
      simp only [FileManager.settle, onAuthStateChanged_resume]
      exact BatchState.of_fetchFiles (h1.same rfl rfl) _ _ _ _
  | fetchFiles =>
    cases resp with
    | ok data => exact h1.same rfl rfl
    | error status => exact h1.of_effect (Effect.consoleError "Error fetching files:") rfl rfl rfl
    | idToken accessToken => exact h
  | handleDelete files fileId =>
    cases resp with
    | ok data => exact h1.same rfl rfl
    | error status => exact h1.of_effect (Effect.alert "Error deleting file.") rfl rfl rfl
    | idToken accessToken => exact h
  | handleUpload sel' i token sortBy filterType searchQuery =>
    cases resp with
    | idToken accessToken => exact h
    | error status => exact h1.of_effect (Effect.alert "Upload failed.") rfl rfl rfl
    | ok data =>
      obtain ⟨log, m, e, inv⟩ := h
      obtain ⟨hnone, hm0, token', sortBy', filterType', searchQuery', hk⟩ :=
        inv.of_lookup u _ hl rfl
      injection hk with hsel hi htok hs hf hq
      subst hsel hi
      have hidx : m - 1 + 1 = m := by omega
      simp only [FileManager.settle, handleUpload_resume, hidx]
      have inv1 := inv.after_settled u true
      by_cases hm : m < sel'.length
      · refine ⟨(log ++ [Effect.settled u true]) ++
          [Effect.request σ.nextTag
            (Request.post (API_URL ++ "/upload") [("file", sel'[m])] (bearer token))],
          m + 1, ?_, ?_⟩
        · simp [uploadLoop, hm, FileManager.issue, e, Response.fulfilled]
        · simp only [uploadLoop, hm, dite_true, FileManager.issue]
          exact inv1.after_post hnone hm σ.nextTag _ _ token sortBy filterType searchQuery
      · have h2 : BatchState sel' base
            { σ with pending := dropTag u σ.pending,
                     log := σ.log ++ [Effect.settled u true] } :=
          ⟨log ++ [Effect.settled u true], m, by simp [e], inv1⟩
        have h3 := BatchState.of_fetchFiles h2 token sortBy filterType searchQuery
        simp only [uploadLoop, hm, dite_false]
        exact h3.same rfl rfl

/-- One turn of the event loop that does not start another batch keeps the
invariant of the batch. -/
theorem BatchState.of_step {sel : List LocalFile} {base : List Effect} {σ : Sys}
    (h : BatchState sel base σ) (e : Event) (he : e.isHandleUpload = false) :
    BatchState sel base (step σ e) := by
  cases e with
  | authStateChanged currentUser =>
    cases currentUser with
    | none => exact h.same rfl rfl
    | some u => exact h.of_issue _ _ rfl rfl
  | respond tag resp =>
    simp only [FileManager.step]
    cases hl : lookupCont tag σ.pending with
    | none => exact h
    | some k => exact h.of_settle tag k resp hl
  | setSortBy value => exact h.same rfl rfl
  | setFilterType value => exact h.same rfl rfl
  | setSearchQuery value => exact h.same rfl rfl
  | applyFilters =>
    simp only [FileManager.step, applyFilters]
    split
    · exact h.of_fetchFiles _ _ _ _
    · exact h
  | handleUpload selectedFiles => simp [Event.isHandleUpload] at he
  | handleDelete fileId confirmed =>
    cases confirmed with
    | false => exact h
    | true => exact h.of_issue _ _ rfl rfl

theorem BatchState.of_run {sel : List LocalFile} {base : List Effect} (events : List Event) :
    ∀ {σ : Sys}, BatchState sel base σ → (∀ e ∈ events, e.isHandleUpload = false) →
      BatchState sel base (run σ events) := by
  induction events with
  | nil => intro σ h _; exact h
  | cons e rest ih =>
    intro σ h he
    exact ih (h.of_step e (he e (List.mem_cons_self _ _)))
      (fun e' he' => he e' (List.mem_cons_of_mem _ he'))

/-- The state right after `handleUpload` ran up to its first `await` satisfies the
invariant of its batch. -/
theorem BatchState.of_handleUpload (σ : Sys) (hu : σ.noUpload) (sel : List LocalFile) :
    BatchState sel σ.log (handleUpload σ (some sel)) := by
  have inv0 : BatchInv sel σ.pending [] 0 :=
    { sequential := rfl
      inFlight := by
        have : uploadTags σ.pending = [] := by
          simp only [uploadTags, List.map_eq_nil_iff, List.filter_eq_nil_iff]
          intro p hp
          simp [hu p hp]
        rw [this]; rfl
      bound := Nat.zero_le _
      requests := rfl
      conts := fun p hp hup => by rw [hu p hp] at hup; exact absurd hup (by decide) }
  cases sel with
  | nil => exact ⟨[], 0, by simp [FileManager.handleUpload], inv0⟩
  | cons file rest =>
    have hnone : uploadTags σ.pending = [] := by rw [← inv0.inFlight]; rfl
    have hm : 0 < (file :: rest).length := Nat.succ_pos _
    refine ⟨[Effect.request σ.nextTag
        (Request.post (API_URL ++ "/upload") [("file", file)] (bearer σ.app.token))], 1, ?_, ?_⟩
    · simp [FileManager.handleUpload, uploadLoop, FileManager.issue]
    · have := inv0.after_post hnone hm σ.nextTag (API_URL ++ "/upload") (bearer σ.app.token)
        σ.app.token σ.app.sortBy σ.app.filterType σ.app.searchQuery
      simpa [FileManager.handleUpload, uploadLoop, FileManager.issue] using this

/-- C8: for a batch started while no other batch is under way, and whatever happens
afterwards short of starting another batch (responses in any order, sign-out,
criteria changes, deletes), the upload requests issued each carry exactly one
file under the name `file` and are those of the first `m` selected files in
their order; whenever an upload request is issued every earlier upload request
has settled; and at no moment are two upload requests in flight. -/
theorem uploads_sequential (σ : Sys) (hu : σ.noUpload) (sel : List LocalFile)
    (events : List Event) (hev : ∀ e ∈ events, e.isHandleUpload = false) :
    (∃ m, m ≤ sel.length ∧
      uploadRequests ((run (handleUpload σ (some sel)) events).log.drop σ.log.length)
        = (sel.take m).map formOf) ∧
    (∀ pre tag url form authorization rest,
      (run (handleUpload σ (some sel)) events).log.drop σ.log.length
        = pre ++ Effect.request tag (Request.post url form authorization) :: rest →
      inFlightUploads pre = []) ∧
    (∀ pre rest,
      (run (handleUpload σ (some sel)) events).log.drop σ.log.length = pre ++ rest →
      (inFlightUploads pre).length ≤ 1) ∧
    (uploadTags (run (handleUpload σ (some sel)) events).pending).length ≤ 1 := by
  obtain ⟨log, m, e, inv⟩ := BatchState.of_run events (BatchState.of_handleUpload σ hu sel) hev
  have hdrop : (run (handleUpload σ (some sel)) events).log.drop σ.log.length = log := by
    rw [e, List.drop_left]
  rw [hdrop]
  refine ⟨⟨m, inv.bound, inv.requests⟩, ?_, ?_, ?_⟩
  · intro pre tag url form authorization rest hsplit
    exact inFlightUploads_before_post pre rest tag url form authorization
      (by rw [← hsplit]; exact inv.sequential)
  · intro pre rest hsplit
    exact inFlightUploads_length_le_one pre
      (uploadsSequential_append_left pre rest (by rw [← hsplit]; exact inv.sequential))
  · rw [← inv.inFlight]
    exact inFlightUploads_length_le_one log inv.sequential

theorem uploads_sequential_witness :
    signedIn.noUpload ∧
    uploadRequests ((run (handleUpload signedIn (some ["x.txt", "y.txt", "z.txt"]))
        [Event.respond 2 (Response.ok []), Event.applyFilters,
         Event.respond 3 (Response.ok [])]).log.drop signedIn.log.length)
      = [formOf "x.txt", formOf "y.txt", formOf "z.txt"] ∧
    (uploadTags (run (handleUpload signedIn (some ["x.txt", "y.txt", "z.txt"]))
        [Event.respond 2 (Response.ok []), Event.applyFilters,
         Event.respond 3 (Response.ok [])]).pending).length ≤ 1 :=
  ⟨by decide, by decide,
    (uploads_sequential signedIn (by decide) ["x.txt", "y.txt", "z.txt"]
      [Event.respond 2 (Response.ok []), Event.applyFilters, Event.respond 3 (Response.ok [])]
      (by decide)).2.2.2⟩

/-! ## Tags stay fresh in every reachable state -/

theorem Sys.WF.mono {σ σ' : Sys} (h : σ.WF) (hp : ∀ p ∈ σ'.pending, p ∈ σ.pending)
    (hn : σ.nextTag ≤ σ'.nextTag) : σ'.WF :=
  fun p hp' => Nat.lt_of_lt_of_le (h p (hp p hp')) hn

theorem Sys.WF.issued {σ : Sys} (h : σ.WF) (req : Request) (k : Cont) : (issue σ req k).WF := by
  intro p hp
  simp only [issue, List.mem_append, List.mem_singleton] at hp ⊢
  rcases hp with hp | rfl
  · exact Nat.lt_succ_of_lt (h p hp)
  · exact Nat.lt_succ_self _

theorem Sys.WF.dropped {σ : Sys} (h : σ.WF) (u : Nat) (e : Effect) :
    Sys.WF { σ with pending := dropTag u σ.pending, log := σ.log ++ [e] } :=
  h.mono (fun _ hp => List.mem_of_mem_filter hp) (Nat.le_refl _)

theorem Sys.WF.after_uploadLoop {σ : Sys} (h : σ.WF) (sel : List LocalFile) (i : Nat)
    (token sortBy filterType searchQuery : String) :
    (uploadLoop σ sel i token sortBy filterType searchQuery).WF := by
  unfold FileManager.uploadLoop
  split
  · exact h.issued _ _
  · exact (fetchFiles_WF σ h token sortBy filterType searchQuery).mono (fun _ hp => hp)
      (Nat.le_refl _)

theorem Sys.WF.after_settle {σ : Sys} (h : σ.WF) (u : Nat) (k : Cont) (resp : Response) :
    (settle σ u k resp).WF := by
  have h1 := h.dropped u (Effect.settled u resp.fulfilled)
  cases k with
  | getIdToken usr =>
    cases resp with
    | ok data => exact h
    | error status => exact h1
    | idToken accessToken =>
      simp only [FileManager.settle, onAuthStateChanged_resume]
      apply fetchFiles_WF
      exact h1.mono (fun _ hp => hp) (Nat.le_refl _)
  | fetchFiles =>
    cases resp with
    | ok data => exact h1.mono (fun _ hp => hp) (Nat.le_refl _)
    | error status => exact h1.mono (fun _ hp => hp) (Nat.le_refl _)
    | idToken accessToken => exact h
  | handleDelete files fileId =>
    cases resp with
    | ok data => exact h1.mono (fun _ hp => hp) (Nat.le_refl _)
    | error status => exact h1.mono (fun _ hp => hp) (Nat.le_refl _)
    | idToken accessToken => exact h
  | handleUpload sel i token sortBy filterType searchQuery =>
    cases resp with
    | ok data => exact h1.after_uploadLoop sel (i + 1) token sortBy filterType searchQuery
    | error status => exact h1.mono (fun _ hp => hp) (Nat.le_refl _)
    | idToken accessToken => exact h

theorem Sys.WF.after_step {σ : Sys} (h : σ.WF) (e : Event) : (step σ e).WF := by
  cases e with
  | authStateChanged currentUser =>
    cases currentUser with
    | none => exact h.mono (fun _ hp => hp) (Nat.le_refl _)
    | some u => exact h.issued _ _
  | respond tag resp =>
    simp only [FileManager.step]
    cases lookupCont tag σ.pending with
    | none => exact h
    | some k => exact h.after_settle tag k resp
  | setSortBy value => exact h.mono (fun _ hp => hp) (Nat.le_refl _)
  | setFilterType value => exact h.mono (fun _ hp => hp) (Nat.le_refl _)
  | setSearchQuery value => exact h.mono (fun _ hp => hp) (Nat.le_refl _)
  | applyFilters =>
    simp only [FileManager.step, applyFilters]
    split
    · exact fetchFiles_WF σ h _ _ _ _
    · exact h
  | handleUpload selectedFiles =>
    cases selectedFiles with
    | none => exact h
    | some sel =>
      simp only [FileManager.step, handleUpload]
      split
      · exact h
      · have h' : Sys.WF { σ with app := { σ.app with loading := true } } :=
          h.mono (fun _ hp => hp) (Nat.le_refl _)
        exact h'.after_uploadLoop sel 0 _ _ _ _
  | handleDelete fileId confirmed =>
    cases confirmed with
    | false => exact h
    | true => exact h.issued _ _

/-- Every state the component reaches from its mount has fresh tags: the
hypothesis `WF` of the theorems above excludes no run of the component. -/
theorem Sys.WF.reachable (localStorage : List (String × String)) (events : List Event) :
    (run (Sys.init localStorage) events).WF := by
  have hgen : ∀ (evs : List Event) (σ : Sys), σ.WF → (run σ evs).WF := by
    intro evs
    induction evs with
    | nil => intro σ h; exact h
    | cons e rest ih => intro σ h; exact ih _ (h.after_step e)
  exact hgen events _ (fun p hp => absurd hp (List.not_mem_nil _))

end FileManager
